import Mathlib

/-!
# yara.c : the command-line front end

A shallow embedding of `src/yara.c` and the properties of its reporting and
traversal pipeline.

Conventions of the embedding.

* A C `char` / `unsigned char` is a Lean `Char`; the terminator NUL is
  `Char.ofNat 0`.  A `char*` that the program only ever passes to `%s`
  (rule and tag identifiers, paths, labels) is the Lean `String` of its
  characters before the terminator.
* A linked list (`TAG`, `STRING`, `MATCH`, chained through `next`) is the Lean
  list of its nodes read from the head; `NULL` is `[]`.
* What a function writes to standard output is returned as a `String`.
* The scanned buffer is a `List Char`; reading it at an index that is not in
  the list yields `none`, and a function that performs such a read returns
  `none`.  So does a function that writes outside an array or through NULL:
  `none` stands for a call whose outcome C leaves undefined.
* The length of a string is the number of its `char`s.
* `unsigned int` values are natural numbers, reduced modulo `2 ^ 32` where the
  program converts them.
-/

namespace Yara

/-! ## Records of `yara.h` -/

/-- Modelled from the spec: the `TAG` node of `yara.h` (the header is not among the
sources); `yara.c` reads `identifier` and `next`, and the `next` chain is the
list the node sits in. -/
structure TAG where
  identifier : String
deriving DecidableEq, Repr

/-- Modelled from the spec: the `MATCH` node of `yara.h`: "an offset into the
scanned buffer and a byte length", both `unsigned int`. -/
structure MATCH where
  offset : Nat
  length : Nat
deriving DecidableEq, Repr

/-- Modelled from the spec: the `STRING` node of `yara.h`.  Of its flag word
`yara.c` only uses the three tests `flags & STRING_FLAGS_FOUND`, `IS_HEX` and
`IS_WIDE`, macros of the absent header; each is kept as the truth value of the
test.  The field `found` is the first, `is_hex` the second, `is_wide` the third;
`match_list` is the field `matches` of the source. -/
structure STRING where
  found : Bool
  is_hex : Bool
  is_wide : Bool
  match_list : List MATCH
deriving DecidableEq, Repr

/-- Modelled from the spec: the `RULE` record of `yara.h`: "an identifier string,
an ordered list of TagIdentifier it carries, and an ordered list of String
patterns it declares". -/
structure RULE where
  identifier : String
  tag_list_head : List TAG
  string_list_head : List STRING
deriving DecidableEq, Repr

/-- The file-scope variables of `yara.c` (lines 35-39), with their initial
values as defaults. -/
structure Globals where
  recursive_search : Bool := false
  show_tags : Bool := false
  show_specified_tags : Bool := false
  show_strings : Bool := false
  specified_tag_list : List TAG := []
deriving DecidableEq, Repr

/-- Modelled from the spec: `lookup_tag` of the rule engine, "present in the rule's
tag list using exact string equality": the first node of the list whose
identifier is the given one, `none` (NULL) when there is none. -/
def lookup_tag (tag_list_head : List TAG) (identifier : String) : Option TAG :=
  tag_list_head.find? (fun t => t.identifier == identifier)

/-! ## The C library calls the renderer makes -/

/-- The terminator of a C string. -/
def NUL : Char := Char.ofNat 0

/-- What `%s` prints for a pointer to the given memory: the characters before
the first NUL. -/
def c_str (mem : List Char) : String :=
  String.mk (mem.takeWhile (fun c => c != NUL))

/-- The upper-case hexadecimal digit `%X` prints for a value below 16. -/
def hexDigit (d : Nat) : Char :=
  if d < 10 then Char.ofNat (48 + d) else Char.ofNat (55 + d)

/-- Digits of `n` in base 16, most significant first, accumulated in front of
`acc`; at least one digit is produced.  The first argument bounds the number of
digits and `n + 1` always suffices. -/
def hexDigitsAux : Nat → Nat → List Char → List Char
  | 0, _, acc => acc
  | fuel + 1, n, acc =>
    if n / 16 = 0 then hexDigit (n % 16) :: acc
    else hexDigitsAux fuel (n / 16) (hexDigit (n % 16) :: acc)

/-- What `%X` prints for an unsigned value. -/
def printf_X (n : Nat) : List Char :=
  hexDigitsAux (n + 1) n []

/-- What `%08X` prints for an `unsigned int` argument: the value is taken modulo
`2 ^ 32`, written in upper-case hexadecimal and padded on the left with `'0'`
to the minimum width 8. -/
def printf_08X (v : Nat) : String :=
  let ds := printf_X (v % 2 ^ 32)
  String.mk (List.replicate (8 - ds.length) '0' ++ ds)

/-- The read half of `memcpy(tmp, buffer + offset, length)`: the `length` bytes
of the buffer from index `offset` on, `none` as soon as one of the indices lies
outside the buffer. -/
def memcpy (buffer : List Char) : Nat → Nat → Option (List Char)
  | _, 0 => some []
  | offset, length + 1 =>
    match buffer[offset]? with
    | none => none
    | some b => (memcpy buffer (offset + 1) length).map (fun tmp => b :: tmp)

/-! ## `print_string` and `callback` -/

/-- Lines 163-179.  `malloc n` tells whether the request for `n` bytes made at
line 169 is granted; the block is released before the function returns, so
every call meets the allocator in the same state.  The size requested is
`length + 1` computed in `unsigned int`.  `tmp` then receives `length` bytes of
the buffer from `offset` on and NUL at index `length`, and is printed by
`printf("%s\n", tmp)`.  The source does not test the result of `malloc`, nor
the size: the value is `none` when `tmp` is NULL, when the block is shorter
than the `length + 1` bytes written to it, and when a byte is read outside the
buffer.  The parameter `buffer_size` is not used by the body, as in the
source. -/
def print_string (malloc : Nat → Bool) (buffer : List Char) (buffer_size : Nat) (offset : Nat)
    (length : Nat) : Option String :=
  let _ := buffer_size
  let size := (length + 1) % 2 ^ 32
  if malloc size = false then none
  else if size < length + 1 then none
  else
    match memcpy buffer offset length with
    | none => none
    | some tmp => some (c_str (tmp ++ [NUL]) ++ "\n")

/-- Lines 194-203: the loop over the operator's tags, started with
`show = FALSE`; it stops with `show = TRUE` at the first tag that `lookup_tag`
finds in the rule. -/
def show_loop (rule : RULE) : List TAG → Bool
  | [] => false
  | tag :: next =>
    if (lookup_tag rule.tag_list_head tag.identifier).isSome then true
    else show_loop rule next

/-- Lines 218-230: the loop that prints the rule's tags, the last one without a
comma. -/
def tag_loop : List TAG → String
  | [] => ""
  | [tag] => tag.identifier
  | tag :: next => tag.identifier ++ "," ++ tag_loop next

/-- Lines 253-273: the loop over the matches of one string. -/
def match_loop (malloc : Nat → Bool) (buffer : List Char) (buffer_size : Nat)
    (string : STRING) :
    List MATCH → Option String
  | [] => some ""
  | m :: next =>
    let pre := printf_08X m.offset ++ ": "
    let body :=
      if string.is_hex then some "\n"
      else if string.is_wide then some "\n"
      else print_string malloc buffer buffer_size m.offset m.length
    match body with
    | none => none
    | some b =>
      match match_loop malloc buffer buffer_size string next with
      | none => none
      | some rest => some (pre ++ b ++ rest)

/-- Lines 247-277: the loop over the strings of the rule. -/
def string_loop (malloc : Nat → Bool) (buffer : List Char) (buffer_size : Nat) :
    List STRING → Option String
  | [] => some ""
  | string :: next =>
    let here :=
      if string.found then match_loop malloc buffer buffer_size string string.match_list
      else some ""
    match here with
    | none => none
    | some h =>
      match string_loop malloc buffer buffer_size next with
      | none => none
      | some rest => some (h ++ rest)

/-- Lines 181-282.  The value is what the call writes to standard output
(`none` when a call of `print_string` has no defined outcome); the C function
returns 0 on every path.  `malloc` is the allocator `print_string` meets. -/
def callback (malloc : Nat → Bool) (g : Globals) (rule : RULE) (buffer : List Char)
    (buffer_size : Nat) (data : String) : Option String :=
  let show0 := true
  let show1 := if g.show_specified_tags then show_loop rule g.specified_tag_list else show0
  if show1 then
    let line :=
      if g.show_tags then
        rule.identifier
          ++ (match rule.tag_list_head with
              | [] => ""
              | tag :: next => " [" ++ tag_loop (tag :: next) ++ "]")
          ++ ("   " ++ data ++ "\n")
      else
        rule.identifier ++ "   " ++ data ++ "\n"
    if g.show_strings then
      match string_loop malloc buffer buffer_size rule.string_list_head with
      | none => none
      | some out => some (line ++ out)
    else some line
  else some ""

/-! ## Directory traversal -/

/-- The file types `scan_dir` and `is_directory` tell apart in `st_mode`:
`S_ISREG` holds of `S_IFREG`, `S_ISDIR` of `S_IFDIR`, neither of any other
type. -/
inductive st_mode where
  | S_IFREG
  | S_IFDIR
  | S_IFOTHER
deriving DecidableEq, Repr

/-- One entry delivered by `readdir`, together with what the file system answers
for it: `st` is the outcome of `stat(full_path, &st)` (`none` when `err != 0`)
and `dp` the outcome of `opendir(full_path)`, the entries it would deliver in
order (`none` when it returns NULL). -/
inductive Entry where
  | mk (d_name : String) (st : Option st_mode) (dp : Option (List Entry))

/-- Field `d_name` of an entry. -/
def Entry.d_name : Entry → String
  | .mk d_name _ _ => d_name

/-- The answer of `stat` for an entry. -/
def Entry.st : Entry → Option st_mode
  | .mk _ st _ => st

/-- The calls a traversal makes, in the order it makes them: `scan_file` with
its path and its label (the rule list and the callback are the same in every
call), and `scan_dir` with its directory and flag. -/
inductive Call where
  | scan_file (path : String) (label : String)
  | scan_dir (dir : String) (recursive : Bool)
deriving DecidableEq, Repr

/-- Lines 109-119, on the outcome of `stat(path, &st)`. -/
def is_directory (st : Option st_mode) : Bool :=
  match st with
  | some m => m == st_mode.S_IFDIR
  | none => false

/-- The test `de->d_name[0] != '.'`. -/
def not_hidden (d_name : String) : Bool :=
  d_name.data.head? != some '.'

/-- Lines 31-33: the capacity of `full_path`; no header included on this
branch defines `MAX_PATH`. -/
def MAX_PATH : Nat := 255

/-- Lines 126 and 136, `sprintf(full_path, "%s/%s", dir, de->d_name)` into
`char full_path[MAX_PATH]`: the string written, `none` when the string and its
terminator do not fit the array (the source does not test the length). -/
def sprintf_full_path (dir : String) (d_name : String) : Option String :=
  let s := dir ++ "/" ++ d_name
  if s.length + 1 ≤ MAX_PATH then some s else none

mutual
/-- Lines 121-159; the argument after `recursive` is the outcome of
`opendir(dir)`.  The value is the list of calls made, `none` when a path
composed on the way does not fit `full_path`. -/
def scan_dir (dir : String) (recursive : Bool) : Option (List Entry) → Option (List Call)
  | none => some []
  | some des => readdir_loop dir recursive des
termination_by structural dp => dp
/-- Lines 134-155: the `while (de)` loop over the entries still to be read. -/
def readdir_loop (dir : String) (recursive : Bool) : List Entry → Option (List Call)
  | [] => some []
  | de :: rest =>
    match loop_body dir recursive de with
    | none => none
    | some here =>
      match readdir_loop dir recursive rest with
      | none => none
      | some later => some (here ++ later)
termination_by structural des => des
/-- Lines 136-152: the body of the loop for the entry `de`. -/
def loop_body (dir : String) (recursive : Bool) : Entry → Option (List Call)
  | .mk d_name st dp =>
    match sprintf_full_path dir d_name with
    | none => none
    | some full_path =>
      match st with
      | none => some []
      | some mode =>
        if mode = st_mode.S_IFREG then
          some [Call.scan_file full_path full_path]
        else if recursive && (mode == st_mode.S_IFDIR) && not_hidden d_name then
          match scan_dir full_path recursive dp with
          | none => none
          | some below => some (Call.scan_dir full_path recursive :: below)
        else some []
termination_by structural de => de
end

/-! ## Command line and `main` -/

/-- One return of `getopt` other than -1: the value returned and the values of
`optarg` and `optopt` at that moment. -/
structure GetoptRet where
  c : Char
  optarg : String := ""
  optopt : Char := '?'
deriving DecidableEq, Repr

/-- Lines 284-354.  The list holds the successive returns of `getopt` up to
the -1 that ends the loop; `malloc k` tells whether the call of `malloc` that
follows `k` successful ones returns a node.  The value is the return value
with the file-scope variables as the call leaves them, `none` for `abort ()`.
Messages written on the way are not represented. -/
def process_cmd_line (malloc : Nat → Bool) : List GetoptRet → Globals → Option (Int × Globals)
  | [], g => some (1, g)
  | r :: rest, g =>
    if r.c = 'v' then some (0, g)
    else if r.c = 'r' then process_cmd_line malloc rest { g with recursive_search := true }
    else if r.c = 'g' then process_cmd_line malloc rest { g with show_tags := true }
    else if r.c = 's' then process_cmd_line malloc rest { g with show_strings := true }
    else if r.c = 't' then
      let g1 := { g with show_specified_tags := true }
      if malloc g1.specified_tag_list.length then
        let tag : TAG := { identifier := r.optarg }
        process_cmd_line malloc rest { g1 with specified_tag_list := tag :: g1.specified_tag_list }
      else some (0, g1)
    else if r.c = '?' then some (0, g)
    else none

/-- Everything outside `yara.c` that one run of `main` consults.  `argv0 :: args`
is `argv` as `main` reads it once `getopt` is done (so `argc = 1 + args.length`),
`getopt` and `optind` are the returns of `getopt` before -1 and the value of
`optind` after it, `alloc_rule_list` tells whether the rule list was allocated,
`fopen i` whether `argv[i]` could be opened, `compile_rules i` is the error
count for `argv[i]` and `compile_stdin` the one for standard input, `st` and
`dp` are the answers of `stat` and `opendir` for `argv[argc - 1]`. -/
structure Invocation where
  argv0 : String
  args : List String
  getopt : List GetoptRet
  optind : Nat
  malloc : Nat → Bool
  alloc_rule_list : Bool
  fopen : Nat → Bool
  compile_rules : Nat → Int
  compile_stdin : Int
  st : Option st_mode
  dp : Option (List Entry)

/-- Lines 381-403: the loop over the rule files, given the indices still to
visit; `true` when it leaves `main` through `return 0` on `errors > 0`. -/
def compile_loop (inv : Invocation) : List Nat → Bool
  | [] => false
  | i :: rest =>
    if inv.fopen i then
      if inv.compile_rules i > 0 then true else compile_loop inv rest
    else compile_loop inv rest

/-- Lines 356-444.  The value is the return value of `main` with the calls of
`scan_dir` and `scan_file` made; it is `none` when `process_cmd_line` aborts and
when the scan of the directory has no defined outcome. -/
def main (inv : Invocation) : Option (Int × List Call) :=
  let argc := 1 + inv.args.length
  match process_cmd_line inv.malloc inv.getopt {} with
  | none => none
  | some (r, g) =>
    if r = 0 then some (0, [])
    else if argc = 1 ∨ inv.optind = argc then some (0, [])
    else if inv.alloc_rule_list = false then some (0, [])
    else if compile_loop inv (List.range' inv.optind (argc - 1 - inv.optind)) then some (0, [])
    else if inv.optind = argc - 1 ∧ inv.compile_stdin > 0 then some (0, [])
    else
      let target := (inv.argv0 :: inv.args).getLast (by simp)
      if is_directory inv.st then
        match scan_dir target g.recursive_search inv.dp with
        | none => none
        | some calls => some (1, Call.scan_dir target g.recursive_search :: calls)
      else
        some (1, [Call.scan_file target target])

end Yara

/-! ## Notions the properties are stated with -/

namespace Yara

/-- The characters `0-9` and `A-F`. -/
def isUpperHex (c : Char) : Bool :=
  (decide ('0' ≤ c) && decide (c ≤ '9')) || (decide ('A' ≤ c) && decide (c ≤ 'F'))

/-- The value of one hexadecimal digit. -/
def hexVal (c : Char) : Nat :=
  if c.toNat ≤ 57 then c.toNat - 48 else c.toNat - 55

/-- The number a list of hexadecimal digits denotes in base 16, most
significant digit first. -/
def hexValue (ds : List Char) : Nat :=
  ds.foldl (fun acc c => 16 * acc + hexVal c) 0

/-- The filter as the operator sees it: no filtering is in force, or some
identifier of the filter list is the identifier of a tag of the rule. -/
def visible (g : Globals) (rule : RULE) : Prop :=
  g.show_specified_tags = false ∨
    ∃ f ∈ g.specified_tag_list, ∃ t ∈ rule.tag_list_head, t.identifier = f.identifier

/-- The identifier line in the format of the specification: the identifier, the
bracketed comma-separated tags unless there is none, three blanks, the label
and a line terminator. -/
def tag_line (ID : String) (tags : List String) (L : String) : String :=
  match tags with
  | [] => ID ++ "   " ++ L ++ "\n"
  | _ :: _ => ID ++ " [" ++ ",".intercalate tags ++ "]" ++ "   " ++ L ++ "\n"

/-- The identifier line with the tags shown or not. -/
def rule_line (g : Globals) (rule : RULE) (L : String) : String :=
  if g.show_tags then tag_line rule.identifier (rule.tag_list_head.map (fun t => t.identifier)) L
  else rule.identifier ++ "   " ++ L ++ "\n"

/-- The matches to report for a list of strings: the strings with the FOUND flag
in list order, each with its matches in list order. -/
def found_matches (strings : List STRING) : List (STRING × MATCH) :=
  (strings.filter (fun s => s.found)).flatMap (fun s => s.match_list.map (fun m => (s, m)))

/-- The line of one match: the offset in eight hexadecimal digits, a colon and a
blank, then the line terminator alone for a hex or wide string and the output
of `print_string` for any other. -/
def match_line (malloc : Nat → Bool) (buffer : List Char) (buffer_size : Nat)
    (sm : STRING × MATCH) : Option String :=
  if sm.1.is_hex = true ∨ sm.1.is_wide = true then
    some (printf_08X sm.2.offset ++ ": " ++ "\n")
  else
    (print_string malloc buffer buffer_size sm.2.offset sm.2.length).map
      (fun content => printf_08X sm.2.offset ++ ": " ++ content)

/-- The lines of a list once all of them are defined, `none` if one is not. -/
def collect : List (Option String) → Option (List String)
  | [] => some []
  | none :: _ => none
  | some l :: rest => (collect rest).map (fun ls => l :: ls)

mutual
/-- The entries a recursive walk of an opened directory comes to. -/
def visited_dp (parent : String) : Option (List Entry) → List (String × Entry)
  | none => []
  | some des => visited parent des
termination_by structural dp => dp
/-- The entries a recursive walk of the directory `parent` comes to, in
depth-first order, each with its path `parent ++ "/" ++ name`: every entry of
the directory in the order of enumeration, each directory entry whose name
does not begin with `'.'` followed at once by the entries the walk of that
directory comes to. -/
def visited (parent : String) : List Entry → List (String × Entry)
  | [] => []
  | de :: rest => visited_entry parent de ++ visited parent rest
termination_by structural des => des
/-- The entry itself and, below a directory whose name does not begin with
`'.'`, the entries of its walk. -/
def visited_entry (parent : String) : Entry → List (String × Entry)
  | .mk d_name st dp =>
    (parent ++ "/" ++ d_name, Entry.mk d_name st dp) ::
      (if st = some st_mode.S_IFDIR ∧ not_hidden d_name = true then
        visited_dp (parent ++ "/" ++ d_name) dp
      else [])
termination_by structural de => de
end

/-- Whether a path with its terminator fits the `MAX_PATH` bytes of
`full_path`. -/
def fits (path : String) : Bool :=
  decide (path.length + 1 ≤ MAX_PATH)

/-- The call made for an entry met at the path `pe.1`: `scan_file` with the path
as path and label for a regular file, `scan_dir` for a directory when the walk
is recursive and the name does not begin with `'.'`, none for anything else. -/
def call_of (recursive : Bool) (pe : String × Entry) : Option Call :=
  if pe.2.st = some st_mode.S_IFREG then some (Call.scan_file pe.1 pe.1)
  else if recursive = true ∧ pe.2.st = some st_mode.S_IFDIR ∧ not_hidden pe.2.d_name = true then
    some (Call.scan_dir pe.1 recursive)
  else none

/-- Whether a call is a call of `scan_file`. -/
def Call.is_scan_file : Call → Bool
  | .scan_file _ _ => true
  | .scan_dir _ _ => false

/-- The target of a run: `argv[argc - 1]`. -/
def Invocation.target (inv : Invocation) : String :=
  (inv.argv0 :: inv.args).getLast (by simp)

/-- No target was given: `argc == 1 || optind == argc`, the help display. -/
def Invocation.help (inv : Invocation) : Prop :=
  1 + inv.args.length = 1 ∨ inv.optind = 1 + inv.args.length

/-- Some compilation reported errors: a rule file `argv[i]`, `optind ≤ i < argc - 1`,
that could be opened and has an error count above 0, or standard input when it
is the rule source (`optind == argc - 1`). -/
def Invocation.compile_failed (inv : Invocation) : Prop :=
  (∃ i, inv.optind ≤ i ∧ i < inv.args.length ∧ inv.fopen i = true ∧ inv.compile_rules i > 0)
  ∨ (inv.optind = inv.args.length ∧ inv.compile_stdin > 0)

/-- A file name of 255 bytes, the longest most file systems accept. -/
def long_name : String :=
  String.mk (List.replicate 255 'a')

/-- The run `yara -v`: `getopt` returns `'v'`. -/
def sample_version : Invocation :=
  { argv0 := "yara", args := ["-v"], getopt := [{ c := 'v' }], optind := 1,
    malloc := fun _ => true, alloc_rule_list := true, fopen := fun _ => true,
    compile_rules := fun _ => 0, compile_stdin := 0, st := none, dp := none }

/-- The run `yara rules.yar file` on a rule file without errors and a regular
file. -/
def sample_scan : Invocation :=
  { argv0 := "yara", args := ["rules.yar", "file"], getopt := [], optind := 1,
    malloc := fun _ => true, alloc_rule_list := true, fopen := fun _ => true,
    compile_rules := fun _ => 0, compile_stdin := 0, st := some st_mode.S_IFREG, dp := none }

/-- The tags of the `-t` options among the returns of `getopt`, in the order
given. -/
def tags_given (opts : List GetoptRet) : List TAG :=
  (opts.filter (fun r => r.c = 't')).map (fun r => TAG.mk r.optarg)

end Yara

/-! ## Auxiliary facts -/

namespace Yara

theorem memcpy_eq (buffer : List Char) (length offset : Nat) :
    memcpy buffer offset length =
      if length = 0 ∨ offset + length ≤ buffer.length then
        some ((buffer.drop offset).take length)
      else none := by
  induction length generalizing offset with
  | zero => simp [memcpy]
  | succ n ih =>
    unfold memcpy
    by_cases h : offset < buffer.length
    · rw [List.getElem?_eq_getElem h]
      simp only [ih (offset + 1)]
      by_cases h2 : n = 0 ∨ offset + 1 + n ≤ buffer.length
      · have h3 : offset + (n + 1) ≤ buffer.length := by
          rcases h2 with h2 | h2
          · omega
          · omega
        rw [if_pos h2, if_pos (Or.inr h3), List.drop_eq_getElem_cons h]
        rfl
      · have h3 : ¬ (n + 1 = 0 ∨ offset + (n + 1) ≤ buffer.length) := by
          intro h4
          apply h2
          rcases h4 with h4 | h4
          · omega
          · right; omega
        rw [if_neg h2, if_neg h3]
        rfl
    · have h1 : buffer[offset]? = none := List.getElem?_eq_none (by omega)
      rw [h1]
      have h3 : ¬ (n + 1 = 0 ∨ offset + (n + 1) ≤ buffer.length) := by
        intro h4
        rcases h4 with h4 | h4
        · omega
        · omega
      rw [if_neg h3]

theorem takeWhile_append_NUL (tmp : List Char) :
    (tmp ++ [NUL]).takeWhile (fun c => c != NUL) = tmp.takeWhile (fun c => c != NUL) := by
  induction tmp with
  | nil => simp [List.takeWhile]
  | cons a t ih =>
    by_cases h : a = NUL
    · simp [List.takeWhile, h]
    · simp [List.takeWhile, h, ih]

theorem takeWhile_no_NUL (tmp : List Char) (h : NUL ∉ tmp) :
    tmp.takeWhile (fun c => c != NUL) = tmp := by
  rw [List.takeWhile_eq_self_iff]
  intro c hc
  have : c ≠ NUL := fun e => h (e ▸ hc)
  simpa using this

theorem size_wraps_iff (length : Nat) :
    (length + 1) % 2 ^ 32 < length + 1 ↔ 2 ^ 32 ≤ length + 1 := by
  constructor
  · intro h
    by_contra hc
    rw [Nat.mod_eq_of_lt (by omega)] at h
    omega
  · intro h
    have := Nat.mod_lt (length + 1) (show 0 < 2 ^ 32 by norm_num)
    omega

theorem print_string_eq (malloc : Nat → Bool) (buffer : List Char)
    (buffer_size offset length : Nat) :
    print_string malloc buffer buffer_size offset length =
      if malloc ((length + 1) % 2 ^ 32) = true ∧ length + 1 < 2 ^ 32 ∧
          (length = 0 ∨ offset + length ≤ buffer.length) then
        some (String.mk (((buffer.drop offset).take length).takeWhile (fun c => c != NUL)) ++ "\n")
      else none := by
  unfold print_string
  rw [memcpy_eq]
  by_cases hm : malloc ((length + 1) % 2 ^ 32) = true
  · by_cases hw : (length + 1) % 2 ^ 32 < length + 1
    · have h2 := (size_wraps_iff length).1 hw
      rw [if_neg (by rw [hm]; decide), if_pos hw, if_neg (by omega)]
    · have h2 : length + 1 < 2 ^ 32 := by
        by_contra hc
        exact hw ((size_wraps_iff length).2 (by omega))
      rw [if_neg (by rw [hm]; decide), if_neg hw]
      by_cases h : length = 0 ∨ offset + length ≤ buffer.length
      · rw [if_pos h, if_pos ⟨hm, h2, h⟩]
        simp only [c_str, takeWhile_append_NUL]
      · rw [if_neg h, if_neg (fun x => h x.2.2)]
  · rw [if_pos (by simpa using hm), if_neg (fun x => hm x.1)]

theorem hexDigit_spec (d : Nat) (h : d < 16) :
    isUpperHex (hexDigit d) = true ∧ hexVal (hexDigit d) = d := by
  interval_cases d <;> decide

theorem hexDigitsAux_acc (fuel n : Nat) (acc : List Char) :
    hexDigitsAux fuel n acc = hexDigitsAux fuel n [] ++ acc := by
  induction fuel generalizing n acc with
  | zero => simp [hexDigitsAux]
  | succ f ih =>
    unfold hexDigitsAux
    by_cases h : n / 16 = 0
    · simp [h]
    · rw [if_neg h, if_neg h, ih (n / 16) (hexDigit (n % 16) :: acc),
        ih (n / 16) [hexDigit (n % 16)]]
      simp

theorem hexDigitsAux_succ (fuel n : Nat) :
    hexDigitsAux (fuel + 1) n [] =
      if n / 16 = 0 then [hexDigit (n % 16)]
      else hexDigitsAux fuel (n / 16) [] ++ [hexDigit (n % 16)] := by
  conv_lhs => unfold hexDigitsAux
  by_cases h : n / 16 = 0
  · simp [h]
  · rw [if_neg h, if_neg h, hexDigitsAux_acc]

theorem hexValue_snoc (xs : List Char) (d : Char) :
    hexValue (xs ++ [d]) = 16 * hexValue xs + hexVal d := by
  simp [hexValue, List.foldl_append]

theorem hexValue_hexDigitsAux (fuel n : Nat) (h : n < fuel) :
    hexValue (hexDigitsAux fuel n []) = n := by
  induction fuel generalizing n with
  | zero => omega
  | succ f ih =>
    rw [hexDigitsAux_succ]
    by_cases h0 : n / 16 = 0
    · rw [if_pos h0]
      have hn : n < 16 := by omega
      have := (hexDigit_spec (n % 16) (Nat.mod_lt _ (by decide))).2
      simp only [hexValue, List.foldl_cons, List.foldl_nil, this]
      omega
    · rw [if_neg h0, hexValue_snoc, ih (n / 16) (by omega),
        (hexDigit_spec (n % 16) (Nat.mod_lt _ (by decide))).2]
      omega

theorem length_hexDigitsAux (fuel n k : Nat) (h : n < fuel) (hk : n < 16 ^ (k + 1)) :
    (hexDigitsAux fuel n []).length ≤ k + 1 := by
  induction fuel generalizing n k with
  | zero => omega
  | succ f ih =>
    rw [hexDigitsAux_succ]
    by_cases h0 : n / 16 = 0
    · rw [if_pos h0]
      simp
    · rw [if_neg h0]
      cases k with
      | zero =>
        exfalso
        simp at hk
        omega
      | succ j =>
        have hj : n / 16 < 16 ^ (j + 1) := by
          rw [Nat.div_lt_iff_lt_mul (by decide)]
          rw [pow_succ] at hk
          exact hk
        have := ih (n / 16) j (by omega) hj
        simp only [List.length_append, List.length_singleton]
        omega

theorem isUpperHex_hexDigitsAux (fuel n : Nat) :
    ∀ c ∈ hexDigitsAux fuel n [], isUpperHex c = true := by
  induction fuel generalizing n with
  | zero => simp [hexDigitsAux]
  | succ f ih =>
    rw [hexDigitsAux_succ]
    have hd := (hexDigit_spec (n % 16) (Nat.mod_lt _ (by decide))).1
    by_cases h0 : n / 16 = 0
    · rw [if_pos h0]
      intro c hc
      simp only [List.mem_singleton] at hc
      rw [hc]; exact hd
    · rw [if_neg h0]
      intro c hc
      rcases List.mem_append.1 hc with hc | hc
      · exact ih _ c hc
      · simp only [List.mem_singleton] at hc
        rw [hc]; exact hd

theorem hexValue_replicate_zero (k : Nat) (ds : List Char) :
    hexValue (List.replicate k '0' ++ ds) = hexValue ds := by
  have key : ∀ k : Nat, List.foldl (fun acc c => 16 * acc + hexVal c) 0 (List.replicate k '0') = 0 := by
    intro k
    induction k with
    | zero => rfl
    | succ j ih =>
      rw [List.replicate_succ, List.foldl_cons]
      have : 16 * 0 + hexVal '0' = 0 := by decide
      rw [this]; exact ih
  unfold hexValue
  rw [List.foldl_append, key]

/-- The eight digits `%08X` prints for a value below `2 ^ 32`. -/
theorem printf_08X_spec (o : Nat) (h : o < 2 ^ 32) :
    ∃ ds : List Char, printf_08X o = String.mk ds ∧ ds.length = 8 ∧
      (∀ c ∈ ds, isUpperHex c = true) ∧ hexValue ds = o := by
  refine ⟨List.replicate (8 - (printf_X o).length) '0' ++ printf_X o, ?_, ?_, ?_, ?_⟩
  · simp only [printf_08X, Nat.mod_eq_of_lt h]
  · have hl : (printf_X o).length ≤ 7 + 1 :=
      length_hexDigitsAux (o + 1) o 7 (by omega) (by
        have : (16 : Nat) ^ (7 + 1) = 2 ^ 32 := by norm_num
        omega)
    simp only [List.length_append, List.length_replicate]
    omega
  · intro c hc
    rcases List.mem_append.1 hc with hc | hc
    · rw [(List.mem_replicate.1 hc).2]; decide
    · exact isUpperHex_hexDigitsAux _ _ c hc
  · rw [hexValue_replicate_zero]
    exact hexValue_hexDigitsAux _ _ (by omega)

theorem show_loop_iff (rule : RULE) (F : List TAG) :
    show_loop rule F = true ↔
      ∃ f ∈ F, ∃ t ∈ rule.tag_list_head, t.identifier = f.identifier := by
  induction F with
  | nil => simp [show_loop]
  | cons a F ih =>
    unfold show_loop
    by_cases h : (lookup_tag rule.tag_list_head a.identifier).isSome = true
    · rw [if_pos h]
      simp only [lookup_tag, List.find?_isSome, beq_iff_eq] at h
      simp only [List.mem_cons, exists_eq_or_imp, true_iff]
      exact Or.inl h
    · rw [if_neg h, ih]
      simp only [lookup_tag, List.find?_isSome, beq_iff_eq] at h
      simp only [List.mem_cons, exists_eq_or_imp]
      constructor
      · intro h2; exact Or.inr h2
      · rintro (h2 | h2)
        · exact absurd h2 h
        · exact h2

theorem intercalate_go_eq (l : List TAG) (acc : String) :
    String.intercalate.go acc "," (l.map (fun t => t.identifier)) =
      acc ++ (match l with | [] => "" | _ :: _ => "," ++ tag_loop l) := by
  induction l generalizing acc with
  | nil => simp [String.intercalate.go]
  | cons b l ih =>
    rw [List.map_cons, String.intercalate.go, ih]
    cases l with
    | nil => simp [tag_loop, String.append_assoc]
    | cons c l => simp [tag_loop, String.append_assoc]

theorem tag_loop_eq (l : List TAG) :
    tag_loop l = ",".intercalate (l.map (fun t => t.identifier)) := by
  cases l with
  | nil => rfl
  | cons a l =>
    rw [List.map_cons, String.intercalate, intercalate_go_eq]
    cases l with
    | nil => simp [tag_loop]
    | cons c l => simp [tag_loop, String.append_assoc]

theorem join_cons (a : String) (l : List String) :
    String.join (a :: l) = a ++ String.join l := by
  have key : ∀ (l : List String) (acc : String),
      List.foldl (fun r s => r ++ s) acc l = acc ++ List.foldl (fun r s => r ++ s) "" l := by
    intro l
    induction l with
    | nil => intro acc; simp
    | cons b l ih =>
      intro acc
      rw [List.foldl_cons, List.foldl_cons, ih (acc ++ b), ih ("" ++ b)]
      simp [String.append_assoc]
  unfold String.join
  rw [List.foldl_cons, key l ("" ++ a)]
  simp

theorem join_append (l1 l2 : List String) :
    String.join (l1 ++ l2) = String.join l1 ++ String.join l2 := by
  induction l1 with
  | nil => simp [String.join]
  | cons a l ih => rw [List.cons_append, join_cons, join_cons, ih, String.append_assoc]

theorem collect_cons_some (l : String) (xs : List (Option String)) :
    collect (some l :: xs) = (collect xs).map (fun ls => l :: ls) := rfl

theorem collect_append (xs ys : List (Option String)) :
    collect (xs ++ ys) =
      match collect xs, collect ys with
      | some a, some b => some (a ++ b)
      | _, _ => none := by
  induction xs with
  | nil =>
    generalize h : collect ys = b
    cases b <;> simp [collect, h]
  | cons x xs ih =>
    cases x with
    | none => simp [collect]
    | some l =>
      rw [List.cons_append, collect_cons_some, collect_cons_some, ih]
      generalize collect xs = a
      generalize collect ys = b
      cases a <;> cases b <;> rfl

theorem collect_length (xs : List (Option String)) (ls : List String)
    (h : collect xs = some ls) : ls.length = xs.length := by
  induction xs generalizing ls with
  | nil => simp [collect] at h; simp [← h]
  | cons x xs ih =>
    cases x with
    | none => simp [collect] at h
    | some l =>
      simp only [collect, Option.map_eq_some'] at h
      obtain ⟨t, ht, rfl⟩ := h
      simp [ih t ht]

theorem match_loop_eq (malloc : Nat → Bool) (buffer : List Char) (buffer_size : Nat) (s : STRING) (ms : List MATCH) :
    match_loop malloc buffer buffer_size s ms =
      (collect (ms.map (fun m => match_line malloc buffer buffer_size (s, m)))).map String.join := by
  induction ms with
  | nil => simp [match_loop, collect, String.join]
  | cons m ms ih =>
    unfold match_loop
    rw [ih, List.map_cons]
    have hl : match_line malloc buffer buffer_size (s, m) =
        (if s.is_hex = true then some "\n"
          else if s.is_wide = true then some "\n"
          else print_string malloc buffer buffer_size m.offset m.length).map
            (fun content => printf_08X m.offset ++ ": " ++ content) := by
      unfold match_line
      by_cases hh : s.is_hex = true
      · simp [hh]
      · by_cases hw : s.is_wide = true
        · simp [hh, hw]
        · simp [hh, hw]
    rw [hl]
    generalize (if s.is_hex = true then some "\n"
          else if s.is_wide = true then some "\n"
          else print_string malloc buffer buffer_size m.offset m.length) = body
    cases body with
    | none => simp [collect]
    | some b =>
      rw [Option.map_some', collect_cons_some]
      generalize collect (ms.map (fun m => match_line malloc buffer buffer_size (s, m))) = r
      cases r with
      | none => simp
      | some ls => simp [join_cons, String.append_assoc]

theorem found_matches_cons (s : STRING) (rest : List STRING) :
    found_matches (s :: rest) =
      if s.found = true then s.match_list.map (fun m => (s, m)) ++ found_matches rest
      else found_matches rest := by
  unfold found_matches
  by_cases h : s.found = true
  · simp [h, List.filter_cons]
  · simp [h, List.filter_cons]

theorem string_loop_eq (malloc : Nat → Bool) (buffer : List Char) (buffer_size : Nat) (strings : List STRING) :
    string_loop malloc buffer buffer_size strings =
      (collect ((found_matches strings).map (match_line malloc buffer buffer_size))).map String.join := by
  induction strings with
  | nil => simp [string_loop, found_matches, collect, String.join]
  | cons s rest ih =>
    unfold string_loop
    rw [found_matches_cons, ih]
    by_cases h : s.found = true
    · simp only [h, if_true, match_loop_eq, List.map_append, List.map_map, collect_append]
      have e : (match_line malloc buffer buffer_size ∘ fun m => (s, m)) =
          fun m => match_line malloc buffer buffer_size (s, m) := rfl
      rw [e]
      generalize collect ((found_matches rest).map (match_line malloc buffer buffer_size)) = r
      generalize collect (s.match_list.map (fun m => match_line malloc buffer buffer_size (s, m))) = q
      cases q <;> cases r <;> simp [join_append]
    · simp only [h, Bool.false_eq_true, if_false]
      generalize collect ((found_matches rest).map (match_line malloc buffer buffer_size)) = r
      cases r <;> simp

theorem model_line_eq (g : Globals) (rule : RULE) (data : String) :
    (if g.show_tags = true then
        rule.identifier
          ++ (match rule.tag_list_head with
              | [] => ""
              | tag :: next => " [" ++ tag_loop (tag :: next) ++ "]")
          ++ ("   " ++ data ++ "\n")
      else
        rule.identifier ++ "   " ++ data ++ "\n") = rule_line g rule data := by
  unfold rule_line
  by_cases h : g.show_tags = true
  · rw [if_pos h, if_pos h]
    cases ht : rule.tag_list_head with
    | nil => simp [tag_line, String.append_assoc]
    | cons t ts =>
      show (rule.identifier ++ (" [" ++ tag_loop (t :: ts) ++ "]")) ++ ("   " ++ data ++ "\n") = _
      rw [tag_loop_eq]
      simp only [tag_line, List.map_cons, String.append_assoc]
  · rw [if_neg h, if_neg h]

theorem callback_of_show (malloc : Nat → Bool) (g : Globals) (rule : RULE) (buffer : List Char) (buffer_size : Nat)
    (data : String)
    (h : (if g.show_specified_tags = true then show_loop rule g.specified_tag_list else true)
      = true) :
    callback malloc g rule buffer buffer_size data =
      Option.map (fun out => rule_line g rule data ++ out)
        (if g.show_strings = true then string_loop malloc buffer buffer_size rule.string_list_head
          else some "") := by
  unfold callback
  simp only [h, if_true]
  rw [model_line_eq]
  by_cases hs : g.show_strings = true
  · rw [if_pos hs, if_pos hs]
    cases string_loop malloc buffer buffer_size rule.string_list_head <;> rfl
  · rw [if_neg hs, if_neg hs]
    simp

theorem callback_of_not_show (malloc : Nat → Bool) (g : Globals) (rule : RULE) (buffer : List Char)
    (buffer_size : Nat) (data : String)
    (h : (if g.show_specified_tags = true then show_loop rule g.specified_tag_list else true)
      = false) :
    callback malloc g rule buffer buffer_size data = some "" := by
  unfold callback
  simp only [h, Bool.false_eq_true, if_false]

theorem show_eq_true_iff (g : Globals) (rule : RULE) :
    (if g.show_specified_tags = true then show_loop rule g.specified_tag_list else true) = true
      ↔ visible g rule := by
  unfold visible
  by_cases h : g.show_specified_tags = true
  · rw [if_pos h, show_loop_iff]
    simp [h]
  · rw [if_neg h]
    simp only [Bool.not_eq_true] at h
    simp [h]

theorem callback_of_visible (malloc : Nat → Bool) (g : Globals) (rule : RULE) (buffer : List Char) (buffer_size : Nat)
    (data : String) (hv : visible g rule) :
    callback malloc g rule buffer buffer_size data =
      Option.map (fun out => rule_line g rule data ++ out)
        (if g.show_strings = true then string_loop malloc buffer buffer_size rule.string_list_head
          else some "") :=
  callback_of_show malloc g rule buffer buffer_size data ((show_eq_true_iff g rule).2 hv)

theorem callback_of_not_visible (malloc : Nat → Bool) (g : Globals) (rule : RULE) (buffer : List Char)
    (buffer_size : Nat) (data : String) (hv : ¬ visible g rule) :
    callback malloc g rule buffer buffer_size data = some "" := by
  apply callback_of_not_show
  cases hc : (if g.show_specified_tags = true then show_loop rule g.specified_tag_list else true)
  · rfl
  · exact absurd ((show_eq_true_iff g rule).1 hc) hv

theorem rule_line_ne_empty (g : Globals) (rule : RULE) (data out : String) :
    rule_line g rule data ++ out ≠ "" := by
  intro h
  have hl := congrArg String.length h
  have h1 : ∀ a : String, (a ++ "\n").length = a.length + 1 := by
    intro a; rw [String.length_append]; rfl
  unfold rule_line at hl
  by_cases hs : g.show_tags = true
  · rw [if_pos hs] at hl
    unfold tag_line at hl
    split at hl
    · rw [String.length_append, h1] at hl
      simp at hl
    · rw [String.length_append, h1] at hl
      simp at hl
  · rw [if_neg hs, String.length_append, h1] at hl
    simp at hl

/-! ## The tag filter and the rendering of `callback` -/

/-- C1. Existential tag filter.  Let the filter list `F` be `specified_tag_list`,
with `show_specified_tags` set exactly when `F` is non-empty.  If `F` is empty
or some identifier of `F` is the identifier of a tag of the rule, `callback`
writes the identifier line first, followed by what the strings part writes;
otherwise it writes nothing; and it writes nothing only in that case. -/
theorem callback_existential_tag_filter (malloc : Nat → Bool) (g : Globals) (rule : RULE) (buffer : List Char)
    (buffer_size : Nat) (data : String)
    (hF : g.show_specified_tags = true ↔ g.specified_tag_list ≠ []) :
    ((g.specified_tag_list = [] ∨
        ∃ f ∈ g.specified_tag_list, ∃ t ∈ rule.tag_list_head, t.identifier = f.identifier) →
      callback malloc g rule buffer buffer_size data =
        Option.map (fun out => rule_line g rule data ++ out)
          (if g.show_strings = true then string_loop malloc buffer buffer_size rule.string_list_head
            else some ""))
    ∧ (¬ (g.specified_tag_list = [] ∨
        ∃ f ∈ g.specified_tag_list, ∃ t ∈ rule.tag_list_head, t.identifier = f.identifier) →
      callback malloc g rule buffer buffer_size data = some "")
    ∧ (callback malloc g rule buffer buffer_size data = some "" →
      g.specified_tag_list ≠ [] ∧
        ∀ f ∈ g.specified_tag_list, ∀ t ∈ rule.tag_list_head, t.identifier ≠ f.identifier) := by
  have hvis : visible g rule ↔ (g.specified_tag_list = [] ∨
      ∃ f ∈ g.specified_tag_list, ∃ t ∈ rule.tag_list_head, t.identifier = f.identifier) := by
    unfold visible
    constructor
    · rintro (h | h)
      · left
        by_contra hne
        have := hF.2 hne
        rw [h] at this
        exact Bool.false_ne_true this
      · exact Or.inr h
    · rintro (h | h)
      · left
        cases hs : g.show_specified_tags
        · rfl
        · exact absurd h (hF.1 hs)
      · exact Or.inr h
  refine ⟨fun h => callback_of_visible malloc g rule buffer buffer_size data (hvis.2 h),
    fun h => callback_of_not_visible malloc g rule buffer buffer_size data (fun hv => h (hvis.1 hv)),
    fun h => ?_⟩
  have hnv : ¬ (g.specified_tag_list = [] ∨
      ∃ f ∈ g.specified_tag_list, ∃ t ∈ rule.tag_list_head, t.identifier = f.identifier) := by
    intro hv
    rw [callback_of_visible malloc g rule buffer buffer_size data (hvis.2 hv)] at h
    simp only [Option.map_eq_some'] at h
    obtain ⟨out, _, ho⟩ := h
    exact rule_line_ne_empty g rule data out ho
  constructor
  · exact fun he => hnv (Or.inl he)
  · intro f hf t ht he
    exact hnv (Or.inr ⟨f, hf, t, ht, he⟩)

/-- C1, at the rule tagged `a`, `b`: it is shown with the filter `b`, `c` (the list
then holds `c`, `b`) and with the empty filter, and nothing is written with the
filter `c`. -/
theorem callback_existential_tag_filter_witness :
    (true = true ↔ [TAG.mk "c", TAG.mk "b"] ≠ []) ∧
    callback (fun _ => true)
      { show_specified_tags := true, specified_tag_list := [TAG.mk "c", TAG.mk "b"] }
      (RULE.mk "R" [TAG.mk "a", TAG.mk "b"] []) [] 0 "file" = some "R   file\n" ∧
    callback (fun _ => true) { show_specified_tags := true, specified_tag_list := [TAG.mk "c"] }
      (RULE.mk "R" [TAG.mk "a", TAG.mk "b"] []) [] 0 "file" = some "" ∧
    callback (fun _ => true) {} (RULE.mk "R" [TAG.mk "a", TAG.mk "b"] []) [] 0 "file" = some "R   file\n" :=
  ⟨by decide,
    ((callback_existential_tag_filter (fun _ => true)
        { show_specified_tags := true, specified_tag_list := [TAG.mk "c", TAG.mk "b"] }
        (RULE.mk "R" [TAG.mk "a", TAG.mk "b"] []) [] 0 "file" (by decide)).1
      (by decide)).trans (by decide),
    (callback_existential_tag_filter (fun _ => true)
        { show_specified_tags := true, specified_tag_list := [TAG.mk "c"] }
        (RULE.mk "R" [TAG.mk "a", TAG.mk "b"] []) [] 0 "file" (by decide)).2.1
      (by decide),
    ((callback_existential_tag_filter (fun _ => true) {}
        (RULE.mk "R" [TAG.mk "a", TAG.mk "b"] []) [] 0 "file" (by decide)).1
      (Or.inl rfl)).trans (by decide)⟩

/-- C2. Tag rendering format.  For a visible rule, what `callback` writes starts
with the identifier line: with `show_tags` set it is the identifier, then
`" ["`, the tags in list order separated by commas and `"]"` when there is at
least one tag, then three blanks, the label and a line terminator; with no tag
there are no brackets, and that line is the one written with `show_tags`
unset. -/
theorem callback_tag_rendering (malloc : Nat → Bool) (g : Globals) (rule : RULE) (buffer : List Char)
    (buffer_size : Nat) (data : String) (hv : visible g rule) :
    (g.show_tags = true → ∀ t ts, rule.tag_list_head = t :: ts →
      callback malloc g rule buffer buffer_size data =
        Option.map
          (fun out => rule.identifier ++ " ["
            ++ ",".intercalate ((t :: ts).map (fun x => x.identifier)) ++ "]"
            ++ "   " ++ data ++ "\n" ++ out)
          (if g.show_strings = true then string_loop malloc buffer buffer_size rule.string_list_head
            else some ""))
    ∧ (g.show_tags = true → rule.tag_list_head = [] →
      callback malloc g rule buffer buffer_size data =
        Option.map (fun out => rule.identifier ++ "   " ++ data ++ "\n" ++ out)
          (if g.show_strings = true then string_loop malloc buffer buffer_size rule.string_list_head
            else some ""))
    ∧ (g.show_tags = false →
      callback malloc g rule buffer buffer_size data =
        Option.map (fun out => rule.identifier ++ "   " ++ data ++ "\n" ++ out)
          (if g.show_strings = true then string_loop malloc buffer buffer_size rule.string_list_head
            else some "")) := by
  have hc := callback_of_visible malloc g rule buffer buffer_size data hv
  refine ⟨fun hs t ts ht => ?_, fun hs ht => ?_, fun hs => ?_⟩
  · rw [hc]
    simp only [rule_line, hs, if_true, ht, tag_line, List.map_cons]
  · rw [hc]
    simp only [rule_line, hs, if_true, ht, tag_line, List.map_nil]
  · rw [hc]
    simp only [rule_line, hs, Bool.false_eq_true, if_false]

/-- C2, at the rule `RULEID` tagged `x`, `y`, `z` with the label `LABEL`. -/
theorem callback_tag_rendering_witness :
    visible { show_tags := true } (RULE.mk "RULEID" [TAG.mk "x", TAG.mk "y", TAG.mk "z"] []) ∧
    callback (fun _ => true) { show_tags := true } (RULE.mk "RULEID" [TAG.mk "x", TAG.mk "y", TAG.mk "z"] [])
      [] 0 "LABEL" = some "RULEID [x,y,z]   LABEL\n" :=
  ⟨Or.inl rfl,
    ((callback_tag_rendering (fun _ => true) { show_tags := true }
        (RULE.mk "RULEID" [TAG.mk "x", TAG.mk "y", TAG.mk "z"] []) [] 0 "LABEL" (Or.inl rfl)).1
      rfl (TAG.mk "x") [TAG.mk "y", TAG.mk "z"] rfl).trans (by decide)⟩

/-- C7. Match-line enumeration.  For a visible rule with `show_strings` set, what
`callback` writes is the identifier line followed by one line per element of
`found_matches`, in that order: the matches, in list order, of the strings that
have the FOUND flag, in list order.  The output is defined exactly when every
one of these lines is, and then there are as many lines as such matches.  A
string without the FOUND flag has no element in `found_matches`, whatever its
match list; the line of a hex or wide string is the offset prefix and a line
terminator; with `show_strings` unset only the identifier line is written. -/
theorem callback_match_lines (malloc : Nat → Bool) (g : Globals) (rule : RULE) (buffer : List Char)
    (buffer_size : Nat) (data : String) (hv : visible g rule) :
    (g.show_strings = true →
      callback malloc g rule buffer buffer_size data =
        Option.map (fun ls => rule_line g rule data ++ String.join ls)
          (collect ((found_matches rule.string_list_head).map (match_line malloc buffer buffer_size))))
    ∧ (∀ ls, collect ((found_matches rule.string_list_head).map
          (match_line malloc buffer buffer_size)) = some ls →
        ls.length = (found_matches rule.string_list_head).length)
    ∧ (∀ s m, (s, m) ∈ found_matches rule.string_list_head →
        s ∈ rule.string_list_head ∧ s.found = true ∧ m ∈ s.match_list)
    ∧ (∀ s m, s.is_hex = true ∨ s.is_wide = true →
        match_line malloc buffer buffer_size (s, m) = some (printf_08X m.offset ++ ": " ++ "\n"))
    ∧ (g.show_strings = false →
        callback malloc g rule buffer buffer_size data = some (rule_line g rule data)) := by
  have hc := callback_of_visible malloc g rule buffer buffer_size data hv
  refine ⟨fun hs => ?_, fun ls hls => ?_, fun s m hsm => ?_, fun s m hsw => ?_, fun hs => ?_⟩
  · rw [hc, if_pos hs, string_loop_eq]
    generalize collect ((found_matches rule.string_list_head).map
      (match_line malloc buffer buffer_size)) = r
    cases r <;> rfl
  · rw [collect_length _ ls hls, List.length_map]
  · unfold found_matches at hsm
    simp only [List.mem_flatMap, List.mem_filter, List.mem_map, Prod.mk.injEq] at hsm
    obtain ⟨s1, ⟨hs1, hf⟩, m1, hm1, rfl, rfl⟩ := hsm
    exact ⟨hs1, hf, hm1⟩
  · simp only [match_line, hsw, if_true]
  · rw [hc]
    simp [hs]

/-- C7, at a rule with a found text string, a string that was not found and a
found hex string. -/
theorem callback_match_lines_witness :
    visible { show_strings := true }
      (RULE.mk "R" []
        [STRING.mk true false false [MATCH.mk 1 2, MATCH.mk 0 1],
         STRING.mk false false false [MATCH.mk 0 1],
         STRING.mk true true false [MATCH.mk 255 3]]) ∧
    callback (fun _ => true) { show_strings := true }
      (RULE.mk "R" []
        [STRING.mk true false false [MATCH.mk 1 2, MATCH.mk 0 1],
         STRING.mk false false false [MATCH.mk 0 1],
         STRING.mk true true false [MATCH.mk 255 3]])
      ['a', 'b', 'c'] 3 "f" = some "R   f\n00000001: bc\n00000000: a\n000000FF: \n" :=
  ⟨Or.inl rfl,
    ((callback_match_lines (fun _ => true) { show_strings := true }
        (RULE.mk "R" []
          [STRING.mk true false false [MATCH.mk 1 2, MATCH.mk 0 1],
           STRING.mk false false false [MATCH.mk 0 1],
           STRING.mk true true false [MATCH.mk 255 3]])
        ['a', 'b', 'c'] 3 "f" (Or.inl rfl)).1 rfl).trans (by decide)⟩

/-! ## `print_string` -/

/-- C5 fails at the buffer `abc`, offset 2, length 2: the second byte wanted is at
index 3, outside the buffer of size 3, and the copy of `print_string` reads
it. -/
theorem print_string_reads_out_of_range :
    2 + 2 > 3 ∧ memcpy ['a', 'b', 'c'] 2 2 = none ∧
    print_string (fun _ => true) ['a', 'b', 'c'] 3 2 2 = none := by
  decide

/-- C5, amended.  `print_string` makes no use of `buffer_size`: its copy reads the
indices `O .. O + L - 1` whatever the size is.  On a buffer of `buffer_size`
bytes the copy stays in range exactly when `L = 0` or `O + L ≤ buffer_size`; for
every other offset and length it takes the out-of-range branch.  The call as a
whole has no defined outcome exactly when the copy leaves the buffer, or the
scratch block was not obtained, or its size `L + 1` wrapped. -/
theorem print_string_in_range_iff (malloc : Nat → Bool) (buffer : List Char)
    (buffer_size O L : Nat) (hsize : buffer.length = buffer_size) :
    (memcpy buffer O L = none ↔ 0 < L ∧ buffer_size < O + L)
    ∧ (print_string malloc buffer buffer_size O L = none ↔
        (0 < L ∧ buffer_size < O + L) ∨ malloc ((L + 1) % 2 ^ 32) = false ∨ 2 ^ 32 ≤ L + 1)
    ∧ (∀ n, print_string malloc buffer n O L = print_string malloc buffer buffer_size O L) := by
  refine ⟨?_, ?_, fun n => rfl⟩
  · rw [memcpy_eq, hsize]
    by_cases h : L = 0 ∨ O + L ≤ buffer_size
    · rw [if_pos h]
      simp only [reduceCtorEq, false_iff, not_and, not_lt]
      intro hL
      rcases h with h | h
      · omega
      · exact h
    · rw [if_neg h]
      simp only [true_iff]
      omega
  · rw [print_string_eq, hsize]
    by_cases h : malloc ((L + 1) % 2 ^ 32) = true ∧ L + 1 < 2 ^ 32 ∧
        (L = 0 ∨ O + L ≤ buffer_size)
    · rw [if_pos h]
      simp only [reduceCtorEq, false_iff, not_or, not_and, not_lt, not_le]
      refine ⟨fun hL => ?_, by rw [h.1]; decide, h.2.1⟩
      rcases h.2.2 with h3 | h3
      · omega
      · exact h3
    · rw [if_neg h]
      simp only [true_iff]
      by_cases hm : malloc ((L + 1) % 2 ^ 32) = true
      · by_cases hw : L + 1 < 2 ^ 32
        · left
          have : ¬ (L = 0 ∨ O + L ≤ buffer_size) := fun x => h ⟨hm, hw, x⟩
          omega
        · right; right; omega
      · right; left
        simpa using hm

/-- C5, amended, at the buffer `abc`: offset 1 and length 2 stay in range, offset
2 and length 2 do not. -/
theorem print_string_in_range_iff_witness :
    ['a', 'b', 'c'].length = 3 ∧
    (memcpy ['a', 'b', 'c'] 2 2 = none ↔ 0 < 2 ∧ 3 < 2 + 2) ∧
    memcpy ['a', 'b', 'c'] 1 2 ≠ none ∧
    print_string (fun _ => true) ['a', 'b', 'c'] 3 1 2 ≠ none :=
  ⟨rfl, (print_string_in_range_iff (fun _ => true) ['a', 'b', 'c'] 3 2 2 rfl).1,
    fun h => absurd ((print_string_in_range_iff (fun _ => true) ['a', 'b', 'c'] 3 1 2 rfl).1.1 h)
      (by decide),
    fun h => absurd ((print_string_in_range_iff (fun _ => true) ['a', 'b', 'c'] 3 1 2 rfl).2.1.1 h)
      (by decide)⟩

/-- C6 fails at the buffer `A`, NUL, `B` with the match at offset 0 of length 3:
the match is in bounds, and `print_string` writes `A` and the line terminator,
not the three bytes.  It also fails when `malloc` returns NULL, and at a match of
length `2 ^ 32 - 1`, for which the size of the scratch block wraps to 0: the
call then has no defined outcome. -/
theorem print_string_stops_at_NUL :
    (0 + 3 ≤ ['A', NUL, 'B'].length ∧
      print_string (fun _ => true) ['A', NUL, 'B'] 3 0 3 = some "A\n" ∧
      print_string (fun _ => true) ['A', NUL, 'B'] 3 0 3
        ≠ some (String.mk ((['A', NUL, 'B'].drop 0).take 3) ++ "\n"))
    ∧ (1 + 2 ≤ ['a', 'b', 'c'].length ∧
      print_string (fun _ => false) ['a', 'b', 'c'] 3 1 2 = none)
    ∧ (0 + (2 ^ 32 - 1) ≤ (List.replicate (2 ^ 32 - 1) 'a').length ∧
      print_string (fun _ => true) (List.replicate (2 ^ 32 - 1) 'a') (2 ^ 32 - 1) 0 (2 ^ 32 - 1)
        = none) := by
  refine ⟨by decide, by decide, ?_, ?_⟩
  · rw [List.length_replicate]; omega
  · rw [print_string_eq, if_neg]
    intro h
    have := h.2.1
    omega

/-- C6, amended.  For an in-bounds match (`O + L ≤ buffer_size`, the boundary
included) for which the scratch block is obtained (`malloc` grants the `L + 1`
bytes, and `L + 1 < 2 ^ 32` so that the size does not wrap), `print_string`
writes the bytes `buffer[O .. O+L-1]` up to, and not including, the first NUL
among them, then a line terminator; when none of the `L` bytes is NUL it writes
exactly these `L` bytes, and that is the content `callback` puts after the
offset prefix for a string that is neither hex nor wide. -/
theorem print_string_content (malloc : Nat → Bool) (buffer : List Char) (buffer_size O L : Nat)
    (hsize : buffer.length = buffer_size) (hin : O + L ≤ buffer_size)
    (hm : malloc (L + 1) = true) (hL : L + 1 < 2 ^ 32) :
    print_string malloc buffer buffer_size O L =
      some (String.mk (((buffer.drop O).take L).takeWhile (fun c => c != NUL)) ++ "\n")
    ∧ ((buffer.drop O).take L).length = L
    ∧ (NUL ∉ (buffer.drop O).take L →
        print_string malloc buffer buffer_size O L
          = some (String.mk ((buffer.drop O).take L) ++ "\n")
        ∧ ∀ s : STRING, s.is_hex = false → s.is_wide = false →
            match_loop malloc buffer buffer_size s [MATCH.mk O L] =
              some (printf_08X O ++ ": " ++ String.mk ((buffer.drop O).take L) ++ "\n")) := by
  have h1 : print_string malloc buffer buffer_size O L =
      some (String.mk (((buffer.drop O).take L).takeWhile (fun c => c != NUL)) ++ "\n") := by
    rw [print_string_eq, if_pos ⟨by rw [Nat.mod_eq_of_lt hL]; exact hm, hL, Or.inr (by omega)⟩]
  refine ⟨h1, ?_, fun hn => ?_⟩
  · rw [List.length_take, List.length_drop]
    omega
  · have h2 : print_string malloc buffer buffer_size O L =
        some (String.mk ((buffer.drop O).take L) ++ "\n") := by
      rw [h1, takeWhile_no_NUL _ hn]
    refine ⟨h2, fun s hh hw => ?_⟩
    simp only [match_loop, hh, hw, Bool.false_eq_true, if_false, h2, String.append_assoc]
    simp

/-- C6, amended, at the buffer `abc` with the match at offset 1 of length 2, which
ends at the end of the buffer. -/
theorem print_string_content_witness :
    ['a', 'b', 'c'].length = 3 ∧ 1 + 2 ≤ 3 ∧ (fun _ : Nat => true) (2 + 1) = true ∧
    2 + 1 < 2 ^ 32 ∧
    print_string (fun _ => true) ['a', 'b', 'c'] 3 1 2 = some "bc\n" :=
  ⟨rfl, by decide, rfl, by decide,
    ((print_string_content (fun _ => true) ['a', 'b', 'c'] 3 1 2 rfl (by decide) rfl
      (by decide)).2.2 (by decide)).1.trans (by decide)⟩

/-! ## The offset prefix -/

/-- C8. Offset formatting.  For an offset `o < 2 ^ 32` the prefix written for a
match, `printf("%08X: ", o)`, has exactly 10 characters: 8 characters among
`0-9` and `A-F` whose value in base 16 is `o`, then a colon and a blank; and
every non-empty run of `match_loop` starts with the prefix of its first
match. -/
theorem offset_prefix_format (o : Nat) (h : o < 2 ^ 32) :
    (∃ ds : List Char, printf_08X o ++ ": " = String.mk (ds ++ [':', ' ']) ∧ ds.length = 8 ∧
      (∀ c ∈ ds, isUpperHex c = true) ∧ hexValue ds = o)
    ∧ (printf_08X o ++ ": ").length = 10
    ∧ (∀ (malloc : Nat → Bool) (buffer : List Char) (buffer_size : Nat) (s : STRING)
        (m : MATCH) (next : List MATCH) (out : String), m.offset = o →
        match_loop malloc buffer buffer_size s (m :: next) = some out →
        ∃ rest, out = printf_08X o ++ ": " ++ rest) := by
  obtain ⟨ds, hds, hlen, hhex, hval⟩ := printf_08X_spec o h
  refine ⟨⟨ds, ?_, hlen, hhex, hval⟩, ?_, ?_⟩
  · rw [hds]; rfl
  · rw [hds, String.length_append]
    show ds.length + 2 = 10
    omega
  · intro malloc buffer buffer_size s m next out hm hout
    rw [match_loop_eq, List.map_cons] at hout
    simp only [Option.map_eq_some'] at hout
    obtain ⟨ls, hls, rfl⟩ := hout
    cases hl : match_line malloc buffer buffer_size (s, m) with
    | none => rw [hl] at hls; simp [collect] at hls
    | some l =>
      rw [hl, collect_cons_some] at hls
      simp only [Option.map_eq_some'] at hls
      obtain ⟨t, _, rfl⟩ := hls
      rw [join_cons]
      unfold match_line at hl
      simp only [hm] at hl
      split at hl
      · simp only [Option.some.injEq] at hl
        exact ⟨"\n" ++ String.join t, by rw [← hl, String.append_assoc]⟩
      · simp only [Option.map_eq_some'] at hl
        obtain ⟨c, _, rfl⟩ := hl
        exact ⟨c ++ String.join t, by rw [String.append_assoc]⟩

/-- C8, at the offset 255. -/
theorem offset_prefix_format_witness :
    255 < 2 ^ 32 ∧ printf_08X 255 ++ ": " = "000000FF: " ∧
    (printf_08X 255 ++ ": ").length = 10 :=
  ⟨by decide, by decide, (offset_prefix_format 255 (by decide)).2.1⟩

/-! ## Directory traversal -/

theorem sprintf_full_path_eq (dir d_name : String) :
    sprintf_full_path dir d_name =
      if fits (dir ++ "/" ++ d_name) = true then some (dir ++ "/" ++ d_name) else none := by
  unfold sprintf_full_path fits
  by_cases h : (dir ++ "/" ++ d_name).length + 1 ≤ MAX_PATH
  · simp [h]
  · simp [h]

theorem readdir_loop_append (dir : String) (recursive : Bool) (a b : List Entry) :
    readdir_loop dir recursive (a ++ b) =
      match readdir_loop dir recursive a, readdir_loop dir recursive b with
      | some x, some y => some (x ++ y)
      | _, _ => none := by
  induction a with
  | nil =>
    rw [List.nil_append, readdir_loop]
    cases readdir_loop dir recursive b <;> simp
  | cons e a ih =>
    rw [List.cons_append, readdir_loop, readdir_loop, ih]
    cases loop_body dir recursive e <;> cases readdir_loop dir recursive a <;>
      cases readdir_loop dir recursive b <;> simp

theorem loop_body_of_not_fits (dir : String) (recursive : Bool) (d_name : String)
    (st : Option st_mode) (dp : Option (List Entry))
    (h : fits (dir ++ "/" ++ d_name) = false) :
    loop_body dir recursive (Entry.mk d_name st dp) = none := by
  unfold loop_body
  rw [sprintf_full_path_eq, h]
  rfl

theorem loop_body_false_eq (dir : String) (e : Entry) :
    loop_body dir false e =
      if fits (dir ++ "/" ++ e.d_name) = true then
        some (if e.st = some st_mode.S_IFREG then
          [Call.scan_file (dir ++ "/" ++ e.d_name) (dir ++ "/" ++ e.d_name)] else [])
      else none := by
  obtain ⟨d_name, st, dp⟩ := e
  unfold loop_body
  rw [sprintf_full_path_eq]
  by_cases hf : fits (dir ++ "/" ++ d_name) = true
  · simp only [Entry.d_name, Entry.st, hf, if_true]
    cases st with
    | none => simp
    | some mode => cases mode <;> simp
  · simp only [Entry.d_name, hf]
    rfl

theorem readdir_loop_false (dir : String) (des : List Entry) :
    readdir_loop dir false des =
      if des.all (fun e => fits (dir ++ "/" ++ e.d_name)) = true then
        some ((des.filter (fun e => e.st = some st_mode.S_IFREG)).map
          (fun e => Call.scan_file (dir ++ "/" ++ e.d_name) (dir ++ "/" ++ e.d_name)))
      else none := by
  induction des with
  | nil => simp [readdir_loop]
  | cons e des ih =>
    rw [readdir_loop, ih, loop_body_false_eq]
    by_cases hf : fits (dir ++ "/" ++ e.d_name) = true
    · by_cases ha : des.all (fun e => fits (dir ++ "/" ++ e.d_name)) = true
      · by_cases hr : e.st = some st_mode.S_IFREG
        · simp [hf, ha, hr, List.filter_cons]
        · simp [hf, ha, hr, List.filter_cons]
      · simp [hf, ha]
    · simp [hf]

mutual
theorem scan_dir_true_eq (dir : String) :
    ∀ dp : Option (List Entry),
      scan_dir dir true dp =
        if (visited_dp dir dp).all (fun pe => fits pe.1) = true then
          some ((visited_dp dir dp).filterMap (call_of true))
        else none
  | none => by simp [scan_dir, visited_dp]
  | some des => by
    rw [scan_dir, visited_dp]
    exact readdir_loop_true_eq dir des
termination_by structural dp => dp
theorem readdir_loop_true_eq (dir : String) :
    ∀ des : List Entry,
      readdir_loop dir true des =
        if (visited dir des).all (fun pe => fits pe.1) = true then
          some ((visited dir des).filterMap (call_of true))
        else none
  | [] => by simp [readdir_loop, visited]
  | de :: rest => by
    rw [readdir_loop, visited, List.filterMap_append, List.all_append,
      loop_body_true_eq dir de, readdir_loop_true_eq dir rest]
    by_cases h1 : (visited_entry dir de).all (fun pe => fits pe.1) = true
    · by_cases h2 : (visited dir rest).all (fun pe => fits pe.1) = true
      · simp [h1, h2]
      · simp [h1, h2]
    · simp [h1]
termination_by structural des => des
theorem loop_body_true_eq (dir : String) :
    ∀ de : Entry,
      loop_body dir true de =
        if (visited_entry dir de).all (fun pe => fits pe.1) = true then
          some ((visited_entry dir de).filterMap (call_of true))
        else none
  | .mk d_name st dp => by
    unfold loop_body visited_entry
    rw [sprintf_full_path_eq]
    have ih := scan_dir_true_eq (dir ++ "/" ++ d_name) dp
    by_cases hf : fits (dir ++ "/" ++ d_name) = true
    · cases st with
      | none => simp [call_of, Entry.st, hf]
      | some mode =>
        cases mode with
        | S_IFREG => simp [call_of, Entry.st, hf]
        | S_IFDIR =>
          by_cases hh : not_hidden d_name = true
          · by_cases ha : (visited_dp (dir ++ "/" ++ d_name) dp).all (fun pe => fits pe.1) = true
            · simp [call_of, Entry.st, Entry.d_name, hf, hh, ih, ha]
            · simp [call_of, Entry.st, Entry.d_name, hf, hh, ih, ha]
          · simp [call_of, Entry.st, Entry.d_name, hf, hh]
        | S_IFOTHER => simp [call_of, Entry.st, hf]
    · simp [hf]
termination_by structural de => de
end

theorem filter_scan_file_filterMap (l : List (String × Entry)) :
    (l.filterMap (call_of true)).filter Call.is_scan_file =
      (l.filter (fun pe => pe.2.st = some st_mode.S_IFREG)).map
        (fun pe => Call.scan_file pe.1 pe.1) := by
  induction l with
  | nil => rfl
  | cons pe l ih =>
    by_cases h1 : pe.2.st = some st_mode.S_IFREG
    · have hc : call_of true pe = some (Call.scan_file pe.1 pe.1) := by simp [call_of, h1]
      rw [List.filterMap_cons_some hc, List.filter_cons_of_pos (by rfl),
        List.filter_cons_of_pos (by simpa using h1), List.map_cons, ih]
    · by_cases h2 : pe.2.st = some st_mode.S_IFDIR ∧ not_hidden pe.2.d_name = true
      · have hc : call_of true pe = some (Call.scan_dir pe.1 true) := by
          simp [call_of, h1, h2]
        rw [List.filterMap_cons_some hc, List.filter_cons_of_neg (by simp [Call.is_scan_file]),
          List.filter_cons_of_neg (by simpa using h1), ih]
      · have hc : call_of true pe = none := by
          simp only [call_of, h1, if_false, true_and, h2]
        rw [List.filterMap_cons_none hc, List.filter_cons_of_neg (by simpa using h1), ih]

theorem fits_iff (path : String) : fits path = true ↔ path.length + 1 ≤ MAX_PATH := by
  simp [fits]

theorem long_name_length : long_name.length = 255 := by
  show (List.replicate 255 'a').length = 255
  exact List.length_replicate 255 'a'

theorem long_name_not_fits : fits ("d" ++ "/" ++ long_name) = false := by
  have h : ("d" ++ "/" ++ long_name).length = 257 := by
    rw [String.length_append, String.length_append, long_name_length]
    rfl
  unfold fits
  rw [h]
  decide

/-- C3 fails at the directory `d` with one regular file whose name has 255 bytes:
the path `d/aaa...` takes 258 bytes with its terminator, `sprintf` writes past
the 255 bytes of `full_path`, and the call has no defined outcome, where the
claim has `scan_file` called with that path. -/
theorem scan_dir_recursive_overflows_full_path :
    scan_dir "d" true (some [Entry.mk long_name (some st_mode.S_IFREG) none]) = none
    ∧ scan_dir "d" true (some [Entry.mk long_name (some st_mode.S_IFREG) none])
        ≠ some [Call.scan_file ("d" ++ "/" ++ long_name) ("d" ++ "/" ++ long_name)] := by
  have h : scan_dir "d" true (some [Entry.mk long_name (some st_mode.S_IFREG) none]) = none := by
    rw [scan_dir, readdir_loop, loop_body_of_not_fits _ _ _ _ _ long_name_not_fits]
  exact ⟨h, by rw [h]; exact fun x => Option.noConfusion x⟩

/-- C3, amended.  Recursive walk, for a directory tree in which every path
`parent ++ "/" ++ name` composed for an entry the walk comes to fits, with its
terminator, the `MAX_PATH` = 255 bytes of `full_path`.  The calls `scan_dir`
makes with `recursive` set on a directory with the entries `des` are, in order,
those due to the entries the depth-first walk comes to (`visited`):
`scan_file` with path and label `parent ++ "/" ++ name` for each regular file, a
recursive `scan_dir` for each directory whose name does not begin with `'.'`.
So the calls of `scan_file` are exactly one per regular file the walk comes to,
in that order.  Entry by entry, with the path of the entry fitting: a directory
whose name begins with `'.'` adds no call, nor does an entry of another kind; a
regular file adds its `scan_file` whatever its name; a directory whose name does
not begin with `'.'` adds the calls of its own walk.  When some path composed
on the walk does not fit, the call has no defined outcome. -/
theorem scan_dir_recursive_walk (dir : String) (des : List Entry) :
    ((∀ pe ∈ visited dir des, pe.1.length + 1 ≤ MAX_PATH) →
      scan_dir dir true (some des) = some ((visited dir des).filterMap (call_of true))
      ∧ ∀ calls, scan_dir dir true (some des) = some calls →
          calls.filter Call.is_scan_file =
            ((visited dir des).filter (fun pe => pe.2.st = some st_mode.S_IFREG)).map
              (fun pe => Call.scan_file pe.1 pe.1))
    ∧ (∀ pre post d_name dp, (dir ++ "/" ++ d_name).length + 1 ≤ MAX_PATH →
        not_hidden d_name = false →
        scan_dir dir true (some (pre ++ Entry.mk d_name (some st_mode.S_IFDIR) dp :: post)) =
          scan_dir dir true (some (pre ++ post)))
    ∧ (∀ pre post d_name st dp, (dir ++ "/" ++ d_name).length + 1 ≤ MAX_PATH →
        st ≠ some st_mode.S_IFREG → st ≠ some st_mode.S_IFDIR →
        scan_dir dir true (some (pre ++ Entry.mk d_name st dp :: post)) =
          scan_dir dir true (some (pre ++ post)))
    ∧ (∀ pre post d_name dp a b, (dir ++ "/" ++ d_name).length + 1 ≤ MAX_PATH →
        scan_dir dir true (some pre) = some a → scan_dir dir true (some post) = some b →
        scan_dir dir true (some (pre ++ Entry.mk d_name (some st_mode.S_IFREG) dp :: post)) =
          some (a ++ Call.scan_file (dir ++ "/" ++ d_name) (dir ++ "/" ++ d_name) :: b))
    ∧ (∀ pre post d_name dp a below b, (dir ++ "/" ++ d_name).length + 1 ≤ MAX_PATH →
        not_hidden d_name = true →
        scan_dir dir true (some pre) = some a →
        scan_dir (dir ++ "/" ++ d_name) true dp = some below →
        scan_dir dir true (some post) = some b →
        scan_dir dir true (some (pre ++ Entry.mk d_name (some st_mode.S_IFDIR) dp :: post)) =
          some (a ++ Call.scan_dir (dir ++ "/" ++ d_name) true :: below ++ b))
    ∧ ((∃ pe ∈ visited dir des, MAX_PATH < pe.1.length + 1) →
        scan_dir dir true (some des) = none) := by
  refine ⟨fun hfit => ?_, ?_, ?_, ?_, ?_, fun hex => ?_⟩
  · have hall : (visited dir des).all (fun pe => fits pe.1) = true := by
      rw [List.all_eq_true]
      intro pe hpe
      exact (fits_iff pe.1).2 (hfit pe hpe)
    have h1 : scan_dir dir true (some des) = some ((visited dir des).filterMap (call_of true)) := by
      rw [scan_dir, readdir_loop_true_eq, if_pos hall]
    refine ⟨h1, fun calls hc => ?_⟩
    rw [h1] at hc
    simp only [Option.some.injEq] at hc
    rw [← hc, filter_scan_file_filterMap]
  · intro pre post d_name dp hf hh
    have hf2 := (fits_iff _).2 hf
    simp only [scan_dir, readdir_loop_append, readdir_loop]
    unfold loop_body
    rw [sprintf_full_path_eq, if_pos hf2]
    cases readdir_loop dir true pre <;> cases readdir_loop dir true post <;> simp [hh]
  · intro pre post d_name st dp hf hr hd
    have hf2 := (fits_iff _).2 hf
    simp only [scan_dir, readdir_loop_append, readdir_loop]
    unfold loop_body
    rw [sprintf_full_path_eq, if_pos hf2]
    cases st with
    | none => cases readdir_loop dir true pre <;> cases readdir_loop dir true post <;> simp
    | some mode =>
      cases mode
      · exact absurd rfl hr
      · exact absurd rfl hd
      · cases readdir_loop dir true pre <;> cases readdir_loop dir true post <;> simp
  · intro pre post d_name dp a b hf ha hb
    have hf2 := (fits_iff _).2 hf
    simp only [scan_dir] at ha hb ⊢
    rw [readdir_loop_append, readdir_loop, ha, hb]
    unfold loop_body
    rw [sprintf_full_path_eq, if_pos hf2]
    simp
  · intro pre post d_name dp a below b hf hh ha hbelow hb
    have hf2 := (fits_iff _).2 hf
    simp only [scan_dir] at ha hb ⊢
    rw [readdir_loop_append, readdir_loop, ha, hb]
    unfold loop_body
    rw [sprintf_full_path_eq, if_pos hf2]
    simp [hh, hbelow]
  · rw [scan_dir, readdir_loop_true_eq, if_neg]
    rw [List.all_eq_true]
    intro hall
    obtain ⟨pe, hpe, hlt⟩ := hex
    have := (fits_iff _).1 (hall pe hpe)
    omega

/-- C3, amended, at a directory with the hidden sub-directory `.git` (holding
`config`) and the file `a.txt`: only `a.txt` is scanned; and at a directory that
also has the sub-directory `sub` with the files `b.txt` and `.h`, and an entry
that is neither a file nor a directory. -/
theorem scan_dir_recursive_walk_witness :
    (∀ pe ∈ visited "d"
        [Entry.mk ".git" (some st_mode.S_IFDIR)
            (some [Entry.mk "config" (some st_mode.S_IFREG) none]),
         Entry.mk "a.txt" (some st_mode.S_IFREG) none], pe.1.length + 1 ≤ MAX_PATH)
    ∧ scan_dir "d" true
      (some [Entry.mk ".git" (some st_mode.S_IFDIR)
                (some [Entry.mk "config" (some st_mode.S_IFREG) none]),
             Entry.mk "a.txt" (some st_mode.S_IFREG) none])
      = some [Call.scan_file "d/a.txt" "d/a.txt"]
    ∧ scan_dir "d" true
      (some [Entry.mk ".git" (some st_mode.S_IFDIR)
                (some [Entry.mk "config" (some st_mode.S_IFREG) none]),
             Entry.mk "a.txt" (some st_mode.S_IFREG) none,
             Entry.mk "sub" (some st_mode.S_IFDIR)
                (some [Entry.mk "b.txt" (some st_mode.S_IFREG) none,
                       Entry.mk ".h" (some st_mode.S_IFREG) none]),
             Entry.mk "dev" (some st_mode.S_IFOTHER) none])
      = some [Call.scan_file "d/a.txt" "d/a.txt", Call.scan_dir "d/sub" true,
         Call.scan_file "d/sub/b.txt" "d/sub/b.txt", Call.scan_file "d/sub/.h" "d/sub/.h"] :=
  ⟨by decide,
    ((scan_dir_recursive_walk "d"
      [Entry.mk ".git" (some st_mode.S_IFDIR)
          (some [Entry.mk "config" (some st_mode.S_IFREG) none]),
       Entry.mk "a.txt" (some st_mode.S_IFREG) none]).1 (by decide)).1.trans (by decide),
    ((scan_dir_recursive_walk "d"
      [Entry.mk ".git" (some st_mode.S_IFDIR)
          (some [Entry.mk "config" (some st_mode.S_IFREG) none]),
       Entry.mk "a.txt" (some st_mode.S_IFREG) none,
       Entry.mk "sub" (some st_mode.S_IFDIR)
          (some [Entry.mk "b.txt" (some st_mode.S_IFREG) none,
                 Entry.mk ".h" (some st_mode.S_IFREG) none]),
       Entry.mk "dev" (some st_mode.S_IFOTHER) none]).1 (by decide)).1.trans (by decide)⟩

/-! ## Command line and `main` -/

theorem process_cmd_line_cons (malloc : Nat → Bool) (o : GetoptRet) (opts : List GetoptRet)
    (g : Globals) :
    process_cmd_line malloc (o :: opts) g =
      if o.c = 'v' then some (0, g)
      else if o.c = 'r' then process_cmd_line malloc opts { g with recursive_search := true }
      else if o.c = 'g' then process_cmd_line malloc opts { g with show_tags := true }
      else if o.c = 's' then process_cmd_line malloc opts { g with show_strings := true }
      else if o.c = 't' then
        if malloc g.specified_tag_list.length = true then
          process_cmd_line malloc opts
            { g with show_specified_tags := true,
                     specified_tag_list := TAG.mk o.optarg :: g.specified_tag_list }
        else some (0, { g with show_specified_tags := true })
      else if o.c = '?' then some (0, g)
      else none := by
  rw [process_cmd_line]

theorem process_cmd_line_status (malloc : Nat → Bool) (opts : List GetoptRet) :
    ∀ (g0 : Globals) (r : Int) (g : Globals),
      process_cmd_line malloc opts g0 = some (r, g) → r = 0 ∨ r = 1 := by
  induction opts with
  | nil =>
    intro g0 r g h
    simp only [process_cmd_line, Option.some.injEq, Prod.mk.injEq] at h
    exact Or.inr h.1.symm
  | cons o opts ih =>
    intro g0 r g h
    rw [process_cmd_line_cons] at h
    split_ifs at h
    all_goals first
      | exact ih _ r g h
      | (simp only [Option.some.injEq, Prod.mk.injEq] at h; exact Or.inl h.1.symm)

theorem process_cmd_line_tags (malloc : Nat → Bool) (opts : List GetoptRet) :
    ∀ (g0 g : Globals), process_cmd_line malloc opts g0 = some (1, g) →
      g.specified_tag_list = (tags_given opts).reverse ++ g0.specified_tag_list
      ∧ g.show_specified_tags = (g0.show_specified_tags || !(tags_given opts).isEmpty) := by
  induction opts with
  | nil =>
    intro g0 g h
    simp only [process_cmd_line, Option.some.injEq, Prod.mk.injEq, true_and] at h
    subst h
    simp [tags_given]
  | cons o opts ih =>
    intro g0 g h
    rw [process_cmd_line_cons] at h
    split_ifs at h with hv hr hg hs ht hm hq
    · simp at h
    · have hne : ¬ o.c = 't' := by rw [hr]; decide
      have := ih _ g h
      simpa [tags_given, List.filter_cons, hne] using this
    · have hne : ¬ o.c = 't' := by rw [hg]; decide
      have := ih _ g h
      simpa [tags_given, List.filter_cons, hne] using this
    · have hne : ¬ o.c = 't' := by rw [hs]; decide
      have := ih _ g h
      simpa [tags_given, List.filter_cons, hne] using this
    · have := ih _ g h
      simpa [tags_given, List.filter_cons, ht] using this
    · simp at h
    · simp at h

theorem process_cmd_line_append (malloc : Nat → Bool) (pre rest : List GetoptRet) :
    ∀ (g0 g1 : Globals), process_cmd_line malloc pre g0 = some (1, g1) →
      process_cmd_line malloc (pre ++ rest) g0 = process_cmd_line malloc rest g1 := by
  induction pre with
  | nil =>
    intro g0 g1 h
    simp only [process_cmd_line, Option.some.injEq, Prod.mk.injEq, true_and] at h
    subst h
    rfl
  | cons o pre ih =>
    intro g0 g1 h
    rw [List.cons_append, process_cmd_line_cons]
    rw [process_cmd_line_cons] at h
    split_ifs at h ⊢
    all_goals first
      | exact ih _ g1 h
      | exact absurd h (by simp)

theorem process_cmd_line_all_t (malloc : Nat → Bool) (hm : ∀ k, malloc k = true)
    (args : List String) :
    ∀ g0 : Globals, ∃ g,
      process_cmd_line malloc (args.map (fun a => ({ c := 't', optarg := a } : GetoptRet))) g0
        = some (1, g) := by
  induction args with
  | nil => intro g0; exact ⟨g0, rfl⟩
  | cons a args ih =>
    intro g0
    rw [List.map_cons, process_cmd_line_cons]
    have e : ∀ x : Char, (({ c := 't', optarg := a } : GetoptRet).c = x) = ('t' = x) :=
      fun _ => rfl
    have d1 : ¬ 't' = 'v' := by decide
    have d2 : ¬ 't' = 'r' := by decide
    have d3 : ¬ 't' = 'g' := by decide
    have d4 : ¬ 't' = 's' := by decide
    simp only [e, d1, d2, d3, d4, if_false, if_true, hm]
    exact ih _

theorem compile_loop_iff (inv : Invocation) (l : List Nat) :
    compile_loop inv l = true ↔ ∃ i ∈ l, inv.fopen i = true ∧ inv.compile_rules i > 0 := by
  induction l with
  | nil => simp [compile_loop]
  | cons i l ih =>
    unfold compile_loop
    by_cases hf : inv.fopen i = true
    · by_cases hc : inv.compile_rules i > 0
      · simp [hf, hc]
      · rw [if_pos hf, if_neg hc, ih]
        simp [hf, hc]
    · rw [if_neg hf, ih]
      simp [hf]

theorem compile_stage_iff (inv : Invocation) :
    (compile_loop inv (List.range' inv.optind (1 + inv.args.length - 1 - inv.optind)) = true
      ∨ (inv.optind = 1 + inv.args.length - 1 ∧ inv.compile_stdin > 0))
    ↔ inv.compile_failed := by
  unfold Invocation.compile_failed
  rw [compile_loop_iff]
  have e : 1 + inv.args.length - 1 = inv.args.length := by omega
  rw [e]
  constructor
  · rintro (⟨i, hi, hf, hc⟩ | h)
    · rw [List.mem_range'_1] at hi
      exact Or.inl ⟨i, hi.1, by omega, hf, hc⟩
    · exact Or.inr h
  · rintro (⟨i, h1, h2, hf, hc⟩ | h)
    · exact Or.inl ⟨i, by rw [List.mem_range'_1]; omega, hf, hc⟩
    · exact Or.inr h

theorem main_of_stop (inv : Invocation) (g : Globals)
    (h : process_cmd_line inv.malloc inv.getopt {} = some (0, g)) :
    main inv = some (0, []) := by
  unfold main
  simp [h]

theorem main_of_help (inv : Invocation) (g : Globals)
    (h : process_cmd_line inv.malloc inv.getopt {} = some (1, g)) (hh : inv.help) :
    main inv = some (0, []) := by
  unfold Invocation.help at hh
  unfold main
  simp only [h]
  rw [if_neg (by decide), if_pos hh]

theorem main_of_no_rule_list (inv : Invocation) (g : Globals)
    (h : process_cmd_line inv.malloc inv.getopt {} = some (1, g)) (hh : ¬ inv.help)
    (ha : inv.alloc_rule_list = false) :
    main inv = some (0, []) := by
  unfold Invocation.help at hh
  unfold main
  simp only [h]
  rw [if_neg (by decide), if_neg hh, if_pos ha]

theorem main_of_compile_failed (inv : Invocation) (g : Globals)
    (h : process_cmd_line inv.malloc inv.getopt {} = some (1, g)) (hh : ¬ inv.help)
    (ha : inv.alloc_rule_list = true) (hc : inv.compile_failed) :
    main inv = some (0, []) := by
  unfold Invocation.help at hh
  have hc2 := (compile_stage_iff inv).2 hc
  unfold main
  simp only [h]
  rw [if_neg (by decide), if_neg hh, if_neg (by simp [ha])]
  by_cases hl : compile_loop inv
      (List.range' inv.optind (1 + inv.args.length - 1 - inv.optind)) = true
  · rw [if_pos hl]
  · rw [if_neg hl, if_pos (hc2.resolve_left hl)]

theorem main_of_scan (inv : Invocation) (g : Globals)
    (h : process_cmd_line inv.malloc inv.getopt {} = some (1, g)) (hh : ¬ inv.help)
    (ha : inv.alloc_rule_list = true) (hc : ¬ inv.compile_failed) :
    main inv =
      if is_directory inv.st = true then
        (scan_dir inv.target g.recursive_search inv.dp).map
          (fun calls => (1, Call.scan_dir inv.target g.recursive_search :: calls))
      else some (1, [Call.scan_file inv.target inv.target]) := by
  unfold Invocation.help at hh
  have hc2 : ¬ _ := fun x => hc ((compile_stage_iff inv).1 x)
  rw [not_or] at hc2
  unfold main
  simp only [h]
  rw [if_neg (by decide), if_neg hh, if_neg (by simp [ha]), if_neg hc2.1, if_neg hc2.2]
  unfold Invocation.target
  by_cases hd : is_directory inv.st = true
  · simp only [hd, if_true]
    cases scan_dir ((inv.argv0 :: inv.args).getLast (by simp)) g.recursive_search inv.dp <;> rfl
  · simp only [hd, if_false]
    simp

/-- C4 fails at the directory `d` with one regular file whose name has 255 bytes:
with `recursive` unset too `sprintf` writes past the 255 bytes of `full_path`
and the call has no defined outcome, where the claim has one call of
`scan_file`. -/
theorem scan_dir_non_recursive_overflows_full_path :
    scan_dir "d" false (some [Entry.mk long_name (some st_mode.S_IFREG) none]) = none
    ∧ scan_dir "d" false (some [Entry.mk long_name (some st_mode.S_IFREG) none])
        ≠ some [Call.scan_file ("d" ++ "/" ++ long_name) ("d" ++ "/" ++ long_name)] := by
  have h : scan_dir "d" false (some [Entry.mk long_name (some st_mode.S_IFREG) none]) = none := by
    rw [scan_dir, readdir_loop, loop_body_of_not_fits _ _ _ _ _ long_name_not_fits]
  exact ⟨h, by rw [h]; exact fun x => Option.noConfusion x⟩

/-- C4, amended.  Non-recursive dispatch, for a directory in which the path
`dir ++ "/" ++ name` of every entry fits, with its terminator, the `MAX_PATH` =
255 bytes of `full_path`.  With `recursive` unset, `scan_dir` on a directory
with the entries `des` calls `scan_file` once for each regular file among `des`,
in the order of enumeration, with path and label `dir ++ "/" ++ name`: as many
calls as there are regular files, and no call of `scan_dir`.  When the path of
some entry does not fit, the call has no defined outcome.  And a run of `main`
that comes to the scan with a target that `is_directory` reports not to be a
directory makes the single call `scan_file (target, target)`. -/
theorem non_recursive_dispatch (dir : String) (des : List Entry) :
    ((∀ e ∈ des, (dir ++ "/" ++ e.d_name).length + 1 ≤ MAX_PATH) →
      scan_dir dir false (some des) =
        some ((des.filter (fun e => e.st = some st_mode.S_IFREG)).map
          (fun e => Call.scan_file (dir ++ "/" ++ e.d_name) (dir ++ "/" ++ e.d_name))))
    ∧ (∀ calls, scan_dir dir false (some des) = some calls →
        calls = (des.filter (fun e => e.st = some st_mode.S_IFREG)).map
          (fun e => Call.scan_file (dir ++ "/" ++ e.d_name) (dir ++ "/" ++ e.d_name))
        ∧ calls.length = des.countP (fun e => e.st = some st_mode.S_IFREG)
        ∧ ∀ d r, Call.scan_dir d r ∉ calls)
    ∧ ((∃ e ∈ des, MAX_PATH < (dir ++ "/" ++ e.d_name).length + 1) →
        scan_dir dir false (some des) = none)
    ∧ (∀ (inv : Invocation) (g : Globals),
        process_cmd_line inv.malloc inv.getopt {} = some (1, g) → ¬ inv.help →
        inv.alloc_rule_list = true → ¬ inv.compile_failed → is_directory inv.st = false →
        main inv = some (1, [Call.scan_file inv.target inv.target])) := by
  have h0 := readdir_loop_false dir des
  refine ⟨fun hfit => ?_, fun calls hc => ?_, fun hex => ?_, ?_⟩
  · rw [scan_dir, h0, if_pos]
    rw [List.all_eq_true]
    intro e he
    exact (fits_iff _).2 (hfit e he)
  · rw [scan_dir, h0] at hc
    split_ifs at hc
    simp only [Option.some.injEq] at hc
    subst hc
    refine ⟨rfl, ?_, ?_⟩
    · rw [List.length_map, List.countP_eq_length_filter]
    · intro d r hmem
      rw [List.mem_map] at hmem
      obtain ⟨e, _, he⟩ := hmem
      exact absurd he (by simp)
  · rw [scan_dir, h0, if_neg]
    rw [List.all_eq_true]
    intro hall
    obtain ⟨e, he, hlt⟩ := hex
    have := (fits_iff _).1 (hall e he)
    omega
  · intro inv g hp hh ha hc hd
    rw [main_of_scan inv g hp hh ha hc, hd]
    rfl

/-- C4, amended, at the directory with the file `a.txt` and the sub-directory `sub`
holding `b.txt`, and at the run `yara rules.yar file`. -/
theorem non_recursive_dispatch_witness :
    (∀ e ∈ [Entry.mk "a.txt" (some st_mode.S_IFREG) none,
             Entry.mk "sub" (some st_mode.S_IFDIR)
                (some [Entry.mk "b.txt" (some st_mode.S_IFREG) none])],
        ("d" ++ "/" ++ e.d_name).length + 1 ≤ MAX_PATH)
    ∧ scan_dir "d" false
      (some [Entry.mk "a.txt" (some st_mode.S_IFREG) none,
             Entry.mk "sub" (some st_mode.S_IFDIR)
                (some [Entry.mk "b.txt" (some st_mode.S_IFREG) none])])
      = some [Call.scan_file "d/a.txt" "d/a.txt"]
    ∧ main sample_scan = some (1, [Call.scan_file "file" "file"]) :=
  ⟨by decide,
    ((non_recursive_dispatch "d"
      [Entry.mk "a.txt" (some st_mode.S_IFREG) none,
       Entry.mk "sub" (some st_mode.S_IFDIR)
          (some [Entry.mk "b.txt" (some st_mode.S_IFREG) none])]).1 (by decide)).trans
      (by decide),
    (non_recursive_dispatch "d" []).2.2.2 sample_scan {} (by decide)
      (by unfold Invocation.help; decide) (by decide)
      (by
        unfold Invocation.compile_failed
        rintro (⟨i, h1, h2, _, h4⟩ | ⟨h1, _⟩)
        · exact absurd (show (0 : Int) > 0 from h4) (by decide)
        · exact absurd h1 (by decide))
      (by decide)⟩

/-- C9 fails at `yara -v`, where `main` returns 0 on the version display, and at
`yara rules.yar file`, where it returns 1 after the scan. -/
theorem main_status_zero_on_version_one_after_scan :
    main sample_version = some (0, []) ∧
    main sample_scan = some (1, [Call.scan_file "file" "file"]) := by
  decide

/-- C9, amended.  `main` returns 0 when it ends on the version display or an option
error (`getopt` returns `'v'` or `'?'` after options that were all accepted), on
the help display (no target), or on a compilation with an error count above 0;
it returns 1 after a scan pass: after the one call of `scan_file` for a target
that is no directory, and after the call of `scan_dir` for a directory, once
that call has returned.  Whenever `main` returns, the status is 1 with the scan
made or 0 with no scan made; what the scan reports is no input of the
status. -/
theorem main_exit_status (inv : Invocation) :
    (∀ pre r post g, inv.getopt = pre ++ r :: post →
        process_cmd_line inv.malloc pre {} = some (1, g) → (r.c = 'v' ∨ r.c = '?') →
        main inv = some (0, []))
    ∧ (∀ g, process_cmd_line inv.malloc inv.getopt {} = some (1, g) → inv.help →
        main inv = some (0, []))
    ∧ (∀ g, process_cmd_line inv.malloc inv.getopt {} = some (1, g) → ¬ inv.help →
        inv.alloc_rule_list = true → inv.compile_failed → main inv = some (0, []))
    ∧ (∀ g, process_cmd_line inv.malloc inv.getopt {} = some (1, g) → ¬ inv.help →
        inv.alloc_rule_list = true → ¬ inv.compile_failed →
        (is_directory inv.st = false →
          main inv = some (1, [Call.scan_file inv.target inv.target]))
        ∧ (is_directory inv.st = true →
          (∀ calls, scan_dir inv.target g.recursive_search inv.dp = some calls →
            main inv = some (1, Call.scan_dir inv.target g.recursive_search :: calls))
          ∧ (scan_dir inv.target g.recursive_search inv.dp = none → main inv = none)))
    ∧ (∀ status calls, main inv = some (status, calls) →
        (status = 0 ∧ calls = []) ∨ (status = 1 ∧ calls ≠ [])) := by
  refine ⟨?_, fun g hp hh => main_of_help inv g hp hh,
    fun g hp hh ha hc => main_of_compile_failed inv g hp hh ha hc, ?_, ?_⟩
  · intro pre r post g hg hp hr
    have hstop : process_cmd_line inv.malloc inv.getopt {} = some (0, g) := by
      rw [hg, process_cmd_line_append inv.malloc pre (r :: post) {} g hp,
        process_cmd_line_cons]
      rcases hr with hr | hr
      · rw [if_pos hr]
      · have d1 : ¬ '?' = 'v' := by decide
        have d2 : ¬ '?' = 'r' := by decide
        have d3 : ¬ '?' = 'g' := by decide
        have d4 : ¬ '?' = 's' := by decide
        have d5 : ¬ '?' = 't' := by decide
        simp only [hr, d1, d2, d3, d4, d5, if_false, if_true]
    exact main_of_stop inv g hstop
  · intro g hp hh ha hc
    have hm := main_of_scan inv g hp hh ha hc
    refine ⟨fun hd => ?_, fun hd => ⟨fun calls hs => ?_, fun hs => ?_⟩⟩
    · rw [hm, hd]; rfl
    · rw [hm, if_pos hd, hs]; rfl
    · rw [hm, if_pos hd, hs]; rfl
  · intro status calls hmain
    cases hp : process_cmd_line inv.malloc inv.getopt {} with
    | none =>
      unfold main at hmain
      simp [hp] at hmain
    | some rg =>
      obtain ⟨r, g⟩ := rg
      rcases process_cmd_line_status _ _ _ _ _ hp with hr | hr
      · subst hr
        rw [main_of_stop inv g hp] at hmain
        simp only [Option.some.injEq, Prod.mk.injEq] at hmain
        exact Or.inl ⟨hmain.1.symm, hmain.2.symm⟩
      · subst hr
        by_cases hh : inv.help
        · rw [main_of_help inv g hp hh] at hmain
          simp only [Option.some.injEq, Prod.mk.injEq] at hmain
          exact Or.inl ⟨hmain.1.symm, hmain.2.symm⟩
        · cases ha : inv.alloc_rule_list with
          | false =>
            rw [main_of_no_rule_list inv g hp hh ha] at hmain
            simp only [Option.some.injEq, Prod.mk.injEq] at hmain
            exact Or.inl ⟨hmain.1.symm, hmain.2.symm⟩
          | true =>
            by_cases hc : inv.compile_failed
            · rw [main_of_compile_failed inv g hp hh ha hc] at hmain
              simp only [Option.some.injEq, Prod.mk.injEq] at hmain
              exact Or.inl ⟨hmain.1.symm, hmain.2.symm⟩
            · rw [main_of_scan inv g hp hh ha hc] at hmain
              by_cases hd : is_directory inv.st = true
              · rw [if_pos hd] at hmain
                simp only [Option.map_eq_some', Prod.mk.injEq] at hmain
                obtain ⟨cs, _, h1, h2⟩ := hmain
                exact Or.inr ⟨h1.symm, by rw [← h2]; simp⟩
              · rw [if_neg hd] at hmain
                simp only [Option.some.injEq, Prod.mk.injEq] at hmain
                exact Or.inr ⟨hmain.1.symm, by rw [← hmain.2]; simp⟩

/-- C9, amended, at `yara -v` and at `yara rules.yar file`. -/
theorem main_exit_status_witness :
    sample_version.getopt = [] ++ { c := 'v' } :: [] ∧
    process_cmd_line sample_version.malloc [] {} = some (1, {}) ∧
    main sample_version = some (0, []) ∧
    ((main sample_scan).map Prod.fst = some 1) :=
  ⟨rfl, rfl, (main_exit_status sample_version).1 [] { c := 'v' } [] {} rfl rfl (Or.inl rfl),
    by
      have h := (main_exit_status sample_scan).2.2.2.2 1 [Call.scan_file "file" "file"]
        (by decide)
      rcases h with h | h
      · exact absurd h.1 (by decide)
      · decide⟩

/-- C10 fails at `-t a -t b`: read from its head the list is `b`, `a`. -/
theorem specified_tag_list_of_two :
    (process_cmd_line (fun _ => true) [{ c := 't', optarg := "a" }, { c := 't', optarg := "b" }]
        {}).map (fun p => p.2.specified_tag_list) = some [TAG.mk "b", TAG.mk "a"]
    ∧ [TAG.mk "b", TAG.mk "a"] ≠ [TAG.mk "a", TAG.mk "b"] := by
  decide

/-- C10, amended.  When `process_cmd_line` accepts the options, the resulting
`specified_tag_list`, read from its head, holds the arguments of the `-t`
options in the reverse of the order given: each tag is put in front of the
list, duplicates are kept and no tag is dropped or altered.  With every
allocation succeeding a sequence of `-t` options is accepted. -/
theorem specified_tag_list_reversed (malloc : Nat → Bool) :
    (∀ opts g, process_cmd_line malloc opts {} = some (1, g) →
        g.specified_tag_list = (tags_given opts).reverse)
    ∧ (∀ args : List String, (∀ k, malloc k = true) →
        ∃ g, process_cmd_line malloc
              (args.map (fun a => ({ c := 't', optarg := a } : GetoptRet))) {} = some (1, g)
          ∧ g.specified_tag_list = (args.map TAG.mk).reverse) := by
  constructor
  · intro opts g h
    have := (process_cmd_line_tags malloc opts {} g h).1
    simpa using this
  · intro args hm
    obtain ⟨g, hg⟩ := process_cmd_line_all_t malloc hm args {}
    refine ⟨g, hg, ?_⟩
    have := (process_cmd_line_tags malloc _ {} g hg).1
    rw [this]
    simp [tags_given, List.filter_map, Function.comp_def]

/-- C10, amended, at `-t a -t b -t b`: the list is `b`, `b`, `a`. -/
theorem specified_tag_list_reversed_witness :
    (∀ k, (fun _ : Nat => true) k = true) ∧
    ∃ g, process_cmd_line (fun _ => true)
          (["a", "b", "b"].map (fun a => ({ c := 't', optarg := a } : GetoptRet))) {}
            = some (1, g)
      ∧ g.specified_tag_list = [TAG.mk "b", TAG.mk "b", TAG.mk "a"] :=
  ⟨fun _ => rfl,
    (specified_tag_list_reversed (fun _ => true)).2 ["a", "b", "b"] (fun _ => rfl)⟩

end Yara
